import Mathlib

/-!
Verification development for the londiste replication engine core.

Python strings are embedded as `List Char` (sequences of Unicode code
points), Python dicts as insertion-ordered association lists, and
fallible Python code (raise) as `Except String`.  Each definition below
mirrors one function of the source tree; external library helpers
(skytools, urllib) used by the source are modelled from their documented
behaviour where noted.
-/

set_option maxRecDepth 10000

/-- Python strings as lists of code points. -/
abbrev PyStr := List Char

/-- Python whitespace characters (as used by `str.strip` / `str.split`). -/
def pyIsSpace (c : Char) : Bool :=
  c = ' ' || c = '\t' || c = '\n' || c = '\x0d' || c = '\x0b' || c = '\x0c'

/-- Python `str.strip()`: drop leading and trailing whitespace. -/
def pyStrip (l : PyStr) : PyStr :=
  ((l.dropWhile pyIsSpace).reverse.dropWhile pyIsSpace).reverse

/-- Python `str.split(sep)` for a one-character separator.
`"".split(sep)` is `[""]`. -/
def pySplit (sep : Char) : PyStr → List PyStr
  | [] => [[]]
  | c :: t =>
    if c = sep then [] :: pySplit sep t
    else
      match pySplit sep t with
      | h :: r => (c :: h) :: r
      | [] => [[c]]

/-- Python `str.split(sep, 1)` for a one-character separator:
at most one split, at the first occurrence of `sep`. -/
def pySplitOnce (sep : Char) (l : PyStr) : List PyStr :=
  match l.span (fun c => c ≠ sep) with
  | (a, []) => [a]
  | (a, _ :: rest) => [a, rest]

/-- Python `str.partition(sep)` for a one-character separator. -/
def pyPartition (sep : Char) (l : PyStr) : PyStr × PyStr × PyStr :=
  match l.span (fun c => c ≠ sep) with
  | (a, []) => (a, [], [])
  | (a, s :: rest) => (a, [s], rest)

/-- Python `str.find(c)` for a single character: index or -1. -/
def pyFindChar (c : Char) (l : PyStr) : Int :=
  match l.findIdx? (fun x => x = c) with
  | some i => (i : Int)
  | none => -1

/-- Decimal digit character for a value below 10. -/
def pyDigitChar (n : Nat) : Char := Char.ofNat (48 + n)

/-- Decimal digits of a natural number (used by Python `"%d" %`). -/
def natDigitsGo (n : Nat) (acc : List Char) : List Char :=
  if h : n < 10 then pyDigitChar n :: acc
  else natDigitsGo (n / 10) (pyDigitChar (n % 10) :: acc)
  termination_by n
  decreasing_by exact Nat.div_lt_self (by omega) (by omega)

/-- Decimal representation of a natural number. -/
def natDigits (n : Nat) : List Char := natDigitsGo n []

/-- Python `"%d" % i` for an int. -/
def intRepr (i : Int) : PyStr :=
  if i < 0 then '-' :: natDigits i.natAbs else natDigits i.toNat

/-- Numeric value of a decimal digit character, if it is one. -/
def pyDigitVal (c : Char) : Option Nat :=
  if 48 ≤ c.toNat ∧ c.toNat ≤ 57 then some (c.toNat - 48) else none

/-- Value of a nonempty all-digit string. -/
def digitsVal (l : List Char) : Option Nat :=
  if l ≠ [] ∧ l.all (fun c => (pyDigitVal c).isSome) then
    some (l.foldl (fun acc c => acc * 10 + (pyDigitVal c).getD 0) 0)
  else none

/-- Python `int(s)`: strip whitespace, optional sign, decimal digits.
(Modelled from the stdlib; digit-group underscores are not modelled.) -/
def pyParseInt (s : PyStr) : Option Int :=
  match pyStrip s with
  | [] => none
  | c :: t =>
    if c = '-' then (digitsVal t).map (fun n : Nat => -(n : Int))
    else if c = '+' then (digitsVal t).map (fun n : Nat => (n : Int))
    else (digitsVal (c :: t)).map (fun n : Nat => (n : Int))

/-- Truthiness of a Python `Optional[int]` (None and 0 are falsy). -/
def pyTruthyOptInt : Option Int → Bool
  | none => false
  | some i => i ≠ 0

/-- Truthiness of a Python `Optional[str]` (None and "" are falsy). -/
def pyTruthyOptStr : Option PyStr → Bool
  | none => false
  | some s => s ≠ []

/-- `Except.isOk` as a Bool. -/
def isOkB {ε α : Type} : Except ε α → Bool
  | .ok _ => true
  | .error _ => false

/-! ## repair.py: `Repairer.cmp_value` (value comparison core) -/

/-- `londiste/repair.py` `Repairer.cmp_value`: compare one field value,
tolerating a trailing 3-char `+hh` timezone marker on either side,
provided the shorter side has at least 19 characters. -/
def cmpValueL (v1 v2 : List Char) : Int :=
  if v1 = v2 then 0
  else if v1.length = v2.length + 3 ∧ v2.length ≥ 19 ∧ v1.getD v2.length ' ' = '+' then
    if v1.take (v1.length - 3) = v2 then 0 else -1
  else if v1.length + 3 = v2.length ∧ v1.length ≥ 19 ∧ v2.getD v1.length ' ' = '+' then
    if v2.take (v2.length - 3) = v1 then 0 else -1
  else -1

/-! ## urllib / skytools string codecs

`skytools.db_urlencode` / `db_urldecode` wrap `urllib.parse.quote_plus`
and `unquote_plus`; these stdlib codecs are modelled below from their
documented behaviour (percent-encoding of the UTF-8 bytes of every
character outside the unreserved set, with space encoded as `+`). -/

/-- Characters urllib never quotes (ASCII alphanumerics and `_.-~`). -/
def urlSafe (c : Char) : Bool :=
  c.isAlpha || c.isDigit || c = '_' || c = '.' || c = '-' || c = '~'

/-- UTF-8 bytes of one code point. -/
def utf8EncodeChar (c : Char) : List Nat :=
  let n := c.toNat
  if n < 0x80 then [n]
  else if n < 0x800 then [0xC0 + n / 0x40, 0x80 + n % 0x40]
  else if n < 0x10000 then
    [0xE0 + n / 0x1000, 0x80 + (n / 0x40) % 0x40, 0x80 + n % 0x40]
  else
    [0xF0 + n / 0x40000, 0x80 + (n / 0x1000) % 0x40,
     0x80 + (n / 0x40) % 0x40, 0x80 + n % 0x40]

/-- Is a byte a UTF-8 continuation byte? -/
def utf8Cont (b : Nat) : Bool := 0x80 ≤ b ∧ b < 0xC0

/-- Decode step stream for a UTF-8 byte sequence with explicit fuel
(one unit per decoded character; structurally recursive so that
concrete values compute).  Invalid sequences yield U+FFFD (mirroring
`errors="replace"`). -/
def utf8DecodeGo : Nat → List Nat → List Char
  | 0, _ => []
  | _, [] => []
  | fuel + 1, b :: rest =>
    if b < 0x80 then Char.ofNat b :: utf8DecodeGo fuel rest
    else if b < 0xC0 then '\uFFFD' :: utf8DecodeGo fuel rest
    else if b < 0xE0 then
      match rest with
      | b2 :: rest2 =>
        if utf8Cont b2 then
          Char.ofNat ((b - 0xC0) * 0x40 + (b2 - 0x80)) :: utf8DecodeGo fuel rest2
        else '\uFFFD' :: utf8DecodeGo fuel rest
      | [] => ['\uFFFD']
    else if b < 0xF0 then
      match rest with
      | b2 :: b3 :: rest3 =>
        if utf8Cont b2 && utf8Cont b3 then
          Char.ofNat ((b - 0xE0) * 0x1000 + (b2 - 0x80) * 0x40 + (b3 - 0x80)) ::
            utf8DecodeGo fuel rest3
        else '\uFFFD' :: utf8DecodeGo fuel rest
      | _ => ['\uFFFD']
    else
      match rest with
      | b2 :: b3 :: b4 :: rest4 =>
        if utf8Cont b2 && utf8Cont b3 && utf8Cont b4 then
          Char.ofNat ((b - 0xF0) * 0x40000 + (b2 - 0x80) * 0x1000 +
              (b3 - 0x80) * 0x40 + (b4 - 0x80)) :: utf8DecodeGo fuel rest4
        else '\uFFFD' :: utf8DecodeGo fuel rest
      | _ => ['\uFFFD']

/-- Decode a UTF-8 byte sequence (at most one character per byte, so
the list length is always enough fuel). -/
def utf8Decode (l : List Nat) : List Char := utf8DecodeGo l.length l

/-- Uppercase hex digit. -/
def hexDigitCharU (n : Nat) : Char :=
  Char.ofNat (if n < 10 then 48 + n else 55 + n)

/-- `%XX` escape of one byte. -/
def pctEscape (b : Nat) : List Char :=
  ['%', hexDigitCharU (b / 16), hexDigitCharU (b % 16)]

/-- `urllib.parse.quote_plus` on one character. -/
def quotePlusChar (c : Char) : List Char :=
  if urlSafe c then [c]
  else if c = ' ' then ['+']
  else (utf8EncodeChar c).flatMap pctEscape

/-- `urllib.parse.quote_plus`. -/
def quotePlus (s : PyStr) : PyStr := s.flatMap quotePlusChar

/-- Hex digit value (both cases), if the character is a hex digit. -/
def hexVal (c : Char) : Option Nat :=
  if 48 ≤ c.toNat ∧ c.toNat ≤ 57 then some (c.toNat - 48)
  else if 65 ≤ c.toNat ∧ c.toNat ≤ 70 then some (c.toNat - 55)
  else if 97 ≤ c.toNat ∧ c.toNat ≤ 102 then some (c.toNat - 87)
  else none

/-- Byte stream of `urllib.parse.unquote` applied after `+`→space
replacement: `%XX` pairs become bytes, other characters contribute
their UTF-8 bytes. -/
def unquoteBytes : List Char → List Nat
  | [] => []
  | '%' :: h1 :: h2 :: rest =>
    match hexVal h1, hexVal h2 with
    | some a, some b => (a * 16 + b) :: unquoteBytes rest
    | _, _ => 37 :: unquoteBytes (h1 :: h2 :: rest)
  | c :: rest => utf8EncodeChar c ++ unquoteBytes rest

/-- `urllib.parse.unquote_plus`. -/
def unquotePlus (s : PyStr) : PyStr :=
  utf8Decode (unquoteBytes (s.map (fun c => if c = '+' then ' ' else c)))

/-- Insertion-ordered dict write: overwrite in place, else append
(Python dict assignment semantics). -/
def dictSet {κ α : Type} [DecidableEq κ] (k : κ) (v : α) :
    List (κ × α) → List (κ × α)
  | [] => [(k, v)]
  | (k', v') :: t => if k' = k then (k, v) :: t else (k', v') :: dictSet k v t

/-- Dict lookup. -/
def dictGet {κ α : Type} [DecidableEq κ] (k : κ) : List (κ × α) → Option α
  | [] => none
  | (k', v') :: t => if k' = k then some v' else dictGet k t

/-- Dict key membership. -/
def dictHas {κ α : Type} [DecidableEq κ] (k : κ) (d : List (κ × α)) : Bool :=
  (dictGet k d).isSome

/-- Dict key removal (Python `del d[k]`). -/
def dictDel {κ α : Type} [DecidableEq κ] (k : κ) : List (κ × α) → List (κ × α)
  | [] => []
  | (k', v') :: t => if k' = k then t else (k', v') :: dictDel k t

/-- `skytools.db_urlencode`: `k=v` pairs (bare `k` for None values)
joined with `&`, both sides quote_plus-encoded. -/
def dbUrlencode (d : List (PyStr × Option PyStr)) : PyStr :=
  List.intercalate ['&']
    (d.map (fun kv =>
      match kv.2 with
      | none => quotePlus kv.1
      | some v => quotePlus kv.1 ++ '=' :: quotePlus v))

/-- One element step of `skytools.db_urldecode`: skip empty elements,
split at the first `=` (absent `=` means a None value), unquote_plus
both sides. -/
def dbDecodeStep (res : List (PyStr × Option PyStr)) (elem : PyStr) :
    List (PyStr × Option PyStr) :=
  if elem = [] then res
  else
    match pySplitOnce '=' elem with
    | [nm] => dictSet (unquotePlus nm) none res
    | nm :: v :: _ => dictSet (unquotePlus nm) (some (unquotePlus v)) res
    | [] => res

/-- `skytools.db_urldecode`: split on `&` and fold the element step. -/
def dbUrldecode (qs : PyStr) : List (PyStr × Option PyStr) :=
  (pySplit '&' qs).foldl dbDecodeStep []

/-- `skytools.fq_name`: qualify a name with `public.` when it has no
schema part. -/
def fqName (s : PyStr) : PyStr :=
  if s.contains '.' then s else "public.".data ++ s

/-! ## handler.py: handler-string construction and parsing (C10) -/

/-- The stripped key of one `key=value` argument string
(`arg.partition('=')` first component, stripped). -/
def argKey (arg : PyStr) : PyStr := pyStrip (pyPartition '=' arg).1

/-- The stripped value of one `key=value` argument string
(`arg.partition('=')` last component, stripped). -/
def argVal (arg : PyStr) : PyStr := pyStrip (pyPartition '=' arg).2.2

/-- One argument step of `londiste/handler.py` `_parse_arglist`: reject a
repeated (stripped) key, otherwise store the stripped value under it. -/
def parseArgStep (args : List (PyStr × PyStr)) (arg : PyStr) :
    Except String (List (PyStr × PyStr)) :=
  if dictHas (argKey arg) args then
    .error ("multiple handler arguments: " ++ (argKey arg).asString)
  else
    .ok (dictSet (argKey arg) (argVal arg) args)

/-- `londiste/handler.py` `_parse_arglist`: fold `key=value` strings into
a dict, stripping both sides, rejecting repeated keys. -/
def parseArglist (arglist : List PyStr) : Except String (List (PyStr × PyStr)) :=
  arglist.foldlM parseArgStep []

/-- `londiste/handler.py` `create_handler_string`: `name` or
`name(urlencoded-args)`; a name containing `(` is rejected. -/
def createHandlerString (name : PyStr) (arglist : List PyStr) :
    Except String PyStr :=
  if pyFindChar '(' name ≥ 0 then
    .error ("invalid handler name: " ++ name.asString)
  else if arglist = [] then
    .ok name
  else
    match parseArglist arglist with
    | .error e => .error e
    | .ok args =>
      .ok (name ++ '(' ::
        dbUrlencode (args.map (fun kv => (kv.1, some kv.2))) ++ [')'])

/-- The `db_urlencode` element emitted for one key/value pair with a
non-None value. -/
def encPair (kv : PyStr × PyStr) : PyStr :=
  quotePlus kv.1 ++ '=' :: quotePlus kv.2

/-- `londiste/handler.py` `_parse_handler`: split `name(args)`; args only
parsed when `(` occurs at a positive index, the string must then end in
`)`; commas are rewritten to `&` before urldecoding and None values are
dropped. -/
def parseHandler (hstr : PyStr) : Except String (PyStr × List (PyStr × PyStr)) :=
  let pos := pyFindChar '(' hstr
  if pos > 0 then
    let name := hstr.take pos.toNat
    if hstr.getLast? ≠ some ')' then
      throw ("invalid handler format: " ++ hstr.asString)
    else
      let astr := (hstr.take (hstr.length - 1)).drop (pos.toNat + 1)
      if astr = [] then .ok (name, [])
      else
        let astr := astr.map (fun c => if c = ',' then '&' else c)
        .ok (name, (dbUrldecode astr).filterMap
          (fun kv => kv.2.map (fun v => (kv.1, v))))
  else .ok (hstr, [])

/-! ## exec_attrs.py: EXECUTE attributes (C3, C7) -/

/-- The eight matcher kinds of `londiste/exec_attrs.py`, in
`META_MATCHERS` probe order. -/
inductive MatcherId : Type
  | localTable | localSequence | localDestination
  | needTable | needSequence | needFunction | needSchema | needView
deriving DecidableEq

/-- `META_MATCHERS` probe order. -/
def metaMatchers : List MatcherId :=
  [.localTable, .localSequence, .localDestination,
   .needTable, .needSequence, .needFunction, .needSchema, .needView]

/-- `ExecAttrs.attrs`: dict from the eight recognized keys to value
lists; a key is "present" exactly when its list is nonempty (values are
only ever appended). -/
structure ExecAttrs : Type where
  localTable : List PyStr := []
  localSequence : List PyStr := []
  localDestination : List PyStr := []
  needTable : List PyStr := []
  needSequence : List PyStr := []
  needFunction : List PyStr := []
  needSchema : List PyStr := []
  needView : List PyStr := []
deriving DecidableEq

/-- Values stored under one matcher key. -/
def ExecAttrs.get (a : ExecAttrs) : MatcherId → List PyStr
  | .localTable => a.localTable
  | .localSequence => a.localSequence
  | .localDestination => a.localDestination
  | .needTable => a.needTable
  | .needSequence => a.needSequence
  | .needFunction => a.needFunction
  | .needSchema => a.needSchema
  | .needView => a.needView

/-- `ExecAttrs` with no attribute values (Python `not self.attrs`). -/
def ExecAttrs.isEmpty (a : ExecAttrs) : Bool :=
  metaMatchers.all (fun m => a.get m = [])

/-- Local-object environment seen by `ExecAttrs.need_execute`:
the `local_tables` / `local_seqs` dicts plus the catalog-existence
checks the `Need-*` matchers run through the cursor. -/
structure LocalEnv : Type where
  tables : List (PyStr × PyStr)
  seqs : List (PyStr × PyStr)
  existsTable : PyStr → Bool
  existsSequence : PyStr → Bool
  existsFunction : PyStr → Int → Bool
  existsSchema : PyStr → Bool
  existsView : PyStr → Bool

/-- `Matcher.match` for each matcher kind (`curs`-backed existence
checks come from the environment).  `Need-Function` parses an optional
`(nargs)` suffix with Python `int`, which may raise. -/
def matcherMatch (m : MatcherId) (objname : PyStr) (env : LocalEnv) :
    Except String Bool :=
  match m with
  | .localTable => .ok (dictHas objname env.tables)
  | .localSequence => .ok (dictHas objname env.seqs)
  | .localDestination =>
    match dictGet objname env.tables with
    | none => .ok false
    | some dest => .ok (env.existsTable dest)
  | .needTable => .ok (env.existsTable objname)
  | .needSequence => .ok (env.existsSequence objname)
  | .needFunction =>
    let pos1 := pyFindChar '(' objname
    if pos1 > 0 then
      let pos2 := pyFindChar ')' objname
      if pos2 > 0 then
        let s := (objname.take pos2.toNat).drop (pos1.toNat + 1)
        match pyParseInt s with
        | none => throw ("invalid literal for int: " ++ s.asString)
        | some nargs => .ok (env.existsFunction (objname.take pos1.toNat) nargs)
      else .ok (env.existsFunction objname 0)
    else .ok (env.existsFunction objname 0)
  | .needSchema => .ok (env.existsSchema objname)
  | .needView => .ok (env.existsView objname)

/-- The matched/missed value scan inside `ExecAttrs.need_execute`:
counts individual attribute values that match / fail. -/
def needExecuteScan (a : ExecAttrs) (env : LocalEnv) :
    Except String (Nat × Nat) :=
  metaMatchers.foldlM
    (fun counts m =>
      (a.get m).foldlM
        (fun counts v => do
          let ok ← matcherMatch m (fqName v) env
          pure (if ok then (counts.1 + 1, counts.2) else (counts.1, counts.2 + 1)))
        counts)
    (0, 0)

/-- `ExecAttrs.need_execute`: empty attrs always execute; otherwise
execute on all-match, skip on all-miss, raise on a mixed result. -/
def needExecute (a : ExecAttrs) (env : LocalEnv) : Except String Bool :=
  if a.isEmpty then .ok true
  else
    match needExecuteScan a env with
    | .error e => .error e
    | .ok (matched, missed) =>
      if matched > 0 ∧ missed = 0 then .ok true
      else if missed > 0 ∧ matched = 0 then .ok false
      else if missed = 0 ∧ matched = 0 then .ok true
      else .error "SQL only partially matches local setup"

/-- Modelled from the spec claim C3, for comparison with the source:
count whole *keys* (a key matches when every one of its values matches
locally, fails otherwise), then apply the same four-way decision. -/
def needExecuteKeyLevel (a : ExecAttrs) (env : LocalEnv) :
    Except String Bool := do
  if a.isEmpty then return true
  let counts ← metaMatchers.foldlM
    (fun (counts : Nat × Nat) m => do
      match a.get m with
      | [] => pure counts
      | vs => do
        let oks ← vs.mapM (fun v => matcherMatch m (fqName v) env)
        if oks.all id then pure (counts.1 + 1, counts.2)
        else pure (counts.1, counts.2 + 1))
    (0, 0)
  if counts.1 > 0 ∧ counts.2 = 0 then return true
  else if counts.1 = 0 ∧ counts.2 > 0 then return false
  else if counts.1 = 0 ∧ counts.2 = 0 then return true
  else throw "mixed"

/-! ## playback.py: table states, snapshot, interest check (C1, C2, C9) -/

def TABLE_MISSING : Nat := 0
def TABLE_IN_COPY : Nat := 1
def TABLE_CATCHING_UP : Nat := 2
def TABLE_WANNA_SYNC : Nat := 3
def TABLE_DO_SYNC : Nat := 4
def TABLE_OK : Nat := 5

def SYNC_OK : Nat := 0
def SYNC_LOOP : Nat := 1
def SYNC_EXIT : Nat := 2

/-- `skytools.Snapshot` (external dependency, modelled from its
documented `xmin:xmax:xip_list` format). -/
structure Snapshot : Type where
  xmin : Int
  xmax : Int
  txidList : List Int
deriving DecidableEq

/-- Python `int()` as an `Except` (raising `ValueError` on bad input). -/
def parseIntE (p : PyStr) : Except String Int :=
  (pyParseInt p).elim (Except.error "invalid literal for int") Except.ok

/-- Parse a snapshot string; malformed input raises. -/
def snapshotParse (s : PyStr) : Except String Snapshot := do
  let tmp := pySplit ':' s
  match tmp with
  | [a, b, c] => do
    let xmin ← parseIntE a
    let xmax ← parseIntE b
    let txidList ← if c = [] then pure [] else (pySplit ',' c).mapM parseIntE
    pure ⟨xmin, xmax, txidList⟩
  | _ => throw "Unknown format for snapshot"

/-- `Snapshot.contains`: txid visible in (before) the snapshot. -/
def Snapshot.containsTx (sn : Snapshot) (txid : Int) : Bool :=
  if txid < sn.xmin then true
  else if txid ≥ sn.xmax then false
  else if txid ∈ sn.txidList then false
  else true

/-- The fields of `londiste/playback.py` `TableState` that the verified
operations read or write (attribute cache, handler binding and
parallel-copy bookkeeping are omitted). -/
structure TableState : Type where
  name : PyStr
  state : Nat := TABLE_MISSING
  lastSnapshotTick : Option Int := none
  strSnapshot : Option PyStr := none
  fromSnapshot : Option Snapshot := none
  syncTickId : Option Int := none
  okBatchCount : Nat := 0
  lastTick : Option Int := some 0
  copyRole : Option PyStr := none
  droppedDdl : Option PyStr := none
  changed : Nat := 0
deriving DecidableEq

/-- `TableState.change_snapshot`. -/
def TableState.changeSnapshot (ts : TableState) (strSnapshot : Option PyStr)
    (tagChanged : Bool) : Except String TableState := do
  if ts.strSnapshot = strSnapshot then return ts
  let fromSnapshot ←
    if pyTruthyOptStr strSnapshot then
      (snapshotParse (strSnapshot.getD [])).map some
    else pure none
  let ts := { ts with strSnapshot := strSnapshot, fromSnapshot := fromSnapshot }
  if tagChanged then
    return { ts with okBatchCount := 0, lastTick := none, changed := 1 }
  return ts

/-- `TableState.change_state`. -/
def TableState.changeState (ts : TableState) (state : Nat)
    (tickId : Option Int) : TableState :=
  if ts.state = state ∧ ts.syncTickId = tickId then ts
  else { ts with state := state, syncTickId := tickId, changed := 1 }

/-- Python `x or 0` on an `Optional[int]`. -/
def orZero (o : Option Int) : Int :=
  if pyTruthyOptInt o then o.getD 0 else 0

/-- `TableState.render_state`. -/
def TableState.renderState (ts : TableState) : Option PyStr :=
  if ts.state = TABLE_MISSING then none
  else if ts.state = TABLE_IN_COPY then some "in-copy".data
  else if ts.state = TABLE_CATCHING_UP then some "catching-up".data
  else if ts.state = TABLE_WANNA_SYNC then
    some ("wanna-sync:".data ++ intRepr (orZero ts.syncTickId))
  else if ts.state = TABLE_DO_SYNC then
    some ("do-sync:".data ++ intRepr (orZero ts.syncTickId))
  else if ts.state = TABLE_OK then some "ok".data
  else none

/-- `TableState.parse_state`: returns the parsed state code and the
table state with `sync_tick_id` updated by the `wanna-sync:`/`do-sync:`
forms.  (On the raising paths the source may have assigned
`sync_tick_id` before raising; the error value discards that.) -/
def TableState.parseState (ts : TableState) (mergeState : Option PyStr) :
    Except String (Nat × TableState) :=
  match mergeState with
  | none => .ok (TABLE_MISSING, ts)
  | some ms =>
    if ms = "in-copy".data then .ok (TABLE_IN_COPY, ts)
    else if ms = "catching-up".data then .ok (TABLE_CATCHING_UP, ts)
    else if ms = "ok".data then .ok (TABLE_OK, ts)
    else if ms = "?".data then .ok (TABLE_OK, ts)
    else
      match pySplit ':' ms with
      | [w, t] =>
        match pyParseInt t with
        | none => throw ("invalid literal for int: " ++ t.asString)
        | some tick =>
          let ts := { ts with syncTickId := some tick }
          if w = "wanna-sync".data then .ok (TABLE_WANNA_SYNC, ts)
          else if w = "do-sync".data then .ok (TABLE_DO_SYNC, ts)
          else throw ("Bad table state: " ++ ms.asString)
      | _ => throw ("Bad table state: " ++ ms.asString)

/-- The event fields consulted by the verified operations. -/
structure Event : Type where
  type : PyStr
  data : PyStr := []
  extra3 : Option PyStr := none
  txid : Int := 0
deriving DecidableEq

/-- `TableState.interesting`: the per-event interest check, returning
the decision together with the updated bookkeeping state.  `rest` is
the fall-through after the state gate (snapshot filtering and batch
counting). -/
def TableState.interesting (ts : TableState) (ev : Event) (tickId : Int)
    (copyThread : Bool) (copyTableName : Option PyStr) :
    Except String (Bool × TableState) :=
  let rest : Except String (Bool × TableState) :=
    match ts.fromSnapshot with
    | none => .ok (true, ts)
    | some snap =>
      if snap.containsTx ev.txid then .ok (false, ts)
      else if some tickId ≠ ts.lastTick then
        let ts2 := { ts with lastTick := some tickId,
                             okBatchCount := ts.okBatchCount + 1 }
        if ts2.okBatchCount > 3 then
          match ts2.changeSnapshot none true with
          | .ok t => .ok (true, t)
          | .error e => .error e
        else .ok (true, ts2)
      else .ok (true, ts)
  if copyThread then
    if some ts.name ≠ copyTableName then .ok (false, ts)
    else if ts.state ≠ TABLE_CATCHING_UP ∧ ts.state ≠ TABLE_DO_SYNC then
      .ok (false, ts)
    else rest
  else if ts.state ≠ TABLE_OK then .ok (false, ts)
  else rest

/-- The `Replicator` fields consulted by `sync_from_copy_thread`. -/
structure CopyThreadCtx : Type where
  copyTableName : Option PyStr
  tableMap : List (PyStr × TableState)
  curTick : Int
  workState : Int
  pgqMinCount : Option Int := none
  pgqMinInterval : Option Int := none

/-- `Replicator.sync_from_copy_thread`.  Database writes
(`change_table_state` persisting, `restore_copy_ddl` replaying saved
DDL, `do_copy` running the bulk load) act through the returned context;
their side effects outside the tracked state are not modelled. -/
def syncFromCopyThread (ctx : CopyThreadCtx) :
    Except String (Nat × CopyThreadCtx) := do
  match ctx.copyTableName.bind (fun n => (dictGet n ctx.tableMap).map ((n, ·))) with
  | none => return (SYNC_EXIT, ctx)
  | some (n, t) =>
    if t.state = TABLE_DO_SYNC then
      let ctx := { ctx with pgqMinCount := none, pgqMinInterval := none }
      match t.syncTickId with
      | none => throw "AssertionError"
      | some s =>
        if s = 0 then throw "AssertionError"
        else if ctx.curTick = s then
          let t := t.changeState TABLE_OK none
          return (SYNC_EXIT, { ctx with tableMap := dictSet n t ctx.tableMap })
        else if ctx.curTick < s then return (SYNC_OK, ctx)
        else throw "Invalid table state"
    else if t.state = TABLE_WANNA_SYNC then return (SYNC_LOOP, ctx)
    else if t.state = TABLE_CATCHING_UP then
      if t.copyRole = some "wait-replay".data ∨ t.copyRole = some "lead".data then
        return (SYNC_LOOP, ctx)
      else if pyTruthyOptStr t.droppedDdl then
        let t := { t with droppedDdl := none }
        return (SYNC_OK, { ctx with tableMap := dictSet n t ctx.tableMap })
      else if ctx.workState ≠ 0 then return (SYNC_OK, ctx)
      else
        let t := t.changeState TABLE_WANNA_SYNC (some ctx.curTick)
        return (SYNC_LOOP, { ctx with tableMap := dictSet n t ctx.tableMap })
    else if t.state = TABLE_IN_COPY then
      return (SYNC_LOOP, { ctx with workState := 1 })
    else return (SYNC_EXIT, ctx)

/-! ## handlers/shard.py: shard filtering (C5) -/

/-- Row type: Python dict from column name to value. -/
abbrev Row := List (PyStr × PyStr)

/-- One row of `shard_info_sql`
(`select shard_nr, shard_mask, shard_count from partconf.conf`). -/
structure ShardConfRow : Type where
  shardNr : Option Int
  shardMask : Option Int
  shardCount : Option Int

/-- `ShardHandler.load_shard_info`: validate the shard triple and
return the `(_SHARD_NR, _SHARD_MASK)` globals. -/
def loadShardInfo (row : ShardConfRow) : Except String (Int × Int) := do
  match row.shardNr, row.shardMask, row.shardCount with
  | some nr, some mask, some cnt =>
    if Int.land cnt mask ≠ 0 ∨ mask + 1 ≠ cnt then
      throw "Invalid shard info"
    else if nr < 0 ∨ nr ≥ cnt then
      throw "Invalid shard nr"
    else return (nr, mask)
  | _, _, _ => throw "Error loading shard info"

/-- `ShardHandler.is_local_shard_event`: decode `extra3`, require a
`hash` value, test `hash & mask == nr`. -/
def isLocalShardEvent (shardNr shardMask : Int) (ev : Event) :
    Except String Bool := do
  match ev.extra3 with
  | none => throw "handlers.shard: extra3 not filled"
  | some e3 =>
    let meta := dbUrldecode e3
    match dictGet "hash".data meta with
    | none => throw "handlers.shard: extra3 does not have hash key"
    | some none => throw "handlers.shard: extra3 does not have hash key"
    | some (some h) => do
      let hv ← parseIntE h
      return (Int.land hv shardMask = shardNr)

/-- `ShardHandler.process_event`: skip everything when
`disable_replay`, otherwise apply the row (delegate to the inherited
SQL-building `process_event`) exactly for local-shard events.  Returns
whether the row was applied. -/
def shardProcessEvent (disableReplay : Bool) (shardNr shardMask : Int)
    (ev : Event) : Except String Bool := do
  if disableReplay then return false
  let isLocal ← isLocalShardEvent shardNr shardMask ev
  return isLocal

/-! ## handlers/dispatch.py: bulk-collecting loader (C4) -/

/-- `BaseBulkCollectingLoader.OP_GRAPH`: outer lookup of the current
state node (None models `KeyError`), inner lookup of the edge for the
incoming op. -/
def opGraph (old : PyStr) : Option (PyStr → Option PyStr) :=
  if old = "-".data then
    some (fun op =>
      if op = "U".data then some "U".data
      else if op = "I".data then some "I".data
      else if op = "D".data then some "D".data
      else none)
  else if old = "I".data then
    some (fun op => if op = "D".data then some ".".data else none)
  else if old = "U".data then
    some (fun op => if op = "D".data then some "D".data else none)
  else if old = "D".data then
    some (fun op => if op = "I".data then some "U".data else none)
  else if old = ".".data then
    some (fun op => if op = "I".data then some "I".data else none)
  else none

/-- The `pkey_ev_map` of `BaseBulkCollectingLoader`: pk tuple to
(op-state, row). -/
abbrev PkeyEvMap := List (List PyStr × (PyStr × Row))

/-- `BaseBulkCollectingLoader.process`: fold one `(op, row)` event into
the pk map via the op graph, keeping the old state when no edge is
defined, dropping pk-only rows that end in state `U`, and raising
`unknown event type` from the (dead) `KeyError` handler. -/
def bulkProcess (pkeys : List PyStr) (m : PkeyEvMap) (op : PyStr)
    (row : Row) : Except String PkeyEvMap := do
  let pkData ← pkeys.mapM
    (fun k => (dictGet k row).elim (Except.error "KeyError") Except.ok)
  let old := ((dictGet pkData m).map Prod.fst).getD "-".data
  match opGraph old with
  | none => throw ("unknown event type: " ++ op.asString)
  | some edges =>
    let newOp := (edges op).getD old
    let m := dictSet pkData (newOp, row) m
    if pkData.length = row.length ∧ newOp = "U".data then
      return dictDel pkData m
    else return m

/-- `BaseBulkCollectingLoader.collect_data`: split stored rows into
I/U/D lists, ignoring intermediate states (`-`, `.`). -/
def bulkCollectData (m : PkeyEvMap) : List Row × List Row × List Row :=
  m.foldl
    (fun acc kv =>
      let (op, row) := kv.2
      if op = "I".data then (acc.1 ++ [row], acc.2.1, acc.2.2)
      else if op = "U".data then (acc.1, acc.2.1 ++ [row], acc.2.2)
      else if op = "D".data then (acc.1, acc.2.1, acc.2.2 ++ [row])
      else acc)
    ([], [], [])

/-! ## repair.py: sorted-dump merge scan (C6, C8) -/

/-- `Repairer.get_row`: split a dump line on tabs and zip with the
common field list; a short line raises `IndexError` (list indexing). -/
def getRow (commonFields : List PyStr) (ln : PyStr) : Except String Row := do
  let t := pySplit '\t' (ln.take (ln.length - 1))
  let vals ← (List.range commonFields.length).mapM
    (fun i => (t.get? i).elim (Except.error "IndexError") Except.ok)
  return commonFields.zip vals

/-- Python string `<` (code point lexicographic). -/
def pyStrLt : PyStr → PyStr → Bool
  | [], [] => false
  | [], _ :: _ => true
  | _ :: _, [] => false
  | a :: as_, b :: bs => if a = b then pyStrLt as_ bs else decide (a.toNat < b.toNat)

/-- `Repairer.cmp_keys`: compare primary keys; a None row tags a
finished table as larger than any existing row. -/
def cmpKeys (pkeyList : List PyStr) (srcRow dstRow : Option Row) :
    Except String Int := do
  match srcRow, dstRow with
  | none, none => return 0
  | none, some _ => return 1
  | some _, none => return (-1)
  | some s, some d =>
    pkeyList.foldlM
      (fun acc k => do
        if acc ≠ 0 then return acc
        let v1 ← (dictGet k s).elim (Except.error "KeyError") Except.ok
        let v2 ← (dictGet k d).elim (Except.error "KeyError") Except.ok
        if pyStrLt v1 v2 then return (-1)
        else if pyStrLt v2 v1 then return 1
        else return 0)
      0

/-- `Repairer.cmp_data`: first differing non-identical field makes the
rows unequal. -/
def cmpData (commonFields : List PyStr) (s d : Row) : Except String Int := do
  commonFields.foldlM
    (fun acc k => do
      if acc ≠ 0 then return acc
      let v1 ← (dictGet k s).elim (Except.error "KeyError") Except.ok
      let v2 ← (dictGet k d).elim (Except.error "KeyError") Except.ok
      if cmpValueL v1 v2 ≠ 0 then return (-1) else return 0)
    0

/-- Fix actions emitted by the merge scan
(`got_missed_insert` / `got_missed_update` / `got_missed_delete`). -/
inductive FixAction : Type
  | missedInsert (srcRow : Row)
  | missedUpdate (srcRow dstRow : Row)
  | missedDelete (dstRow : Row)
deriving DecidableEq

/-- `readline` on a stream of lines: head line, or `""` at EOF. -/
def readLn : List PyStr → PyStr × List PyStr
  | [] => ([], [])
  | h :: t => (h, t)

/-- Loop body of `Repairer.dump_compare_streams`; `fuel` bounds the
iteration count (the result is `none` when the loop has not finished
within the given fuel). -/
def dumpCompareGo (cf pk : List PyStr) :
    Nat → PyStr → PyStr → List PyStr → List PyStr → List FixAction →
    Except String (Option (List FixAction))
  | 0, _, _, _, _, _ => .ok none
  | fuel + 1, srcLn, dstLn, f1, f2, acc => do
    if srcLn = [] ∧ dstLn = [] then return (some acc)
    let (keepSrc, keepDst, acc) ←
      if srcLn ≠ dstLn then do
        let srcRow ← getRow cf srcLn
        let dstRow ← getRow cf dstLn
        let diff ← cmpKeys pk (some srcRow) (some dstRow)
        if diff > 0 then
          pure (true, false, acc ++ [FixAction.missedDelete dstRow])
        else if diff < 0 then
          pure (false, true, acc ++ [FixAction.missedInsert srcRow])
        else do
          let dd ← cmpData cf srcRow dstRow
          if dd ≠ 0 then
            pure (false, false, acc ++ [FixAction.missedUpdate srcRow dstRow])
          else pure (false, false, acc)
      else pure (false, false, acc)
    let (srcLn, f1) := if keepSrc then (srcLn, f1) else readLn f1
    let (dstLn, f2) := if keepDst then (dstLn, f2) else readLn f2
    dumpCompareGo cf pk fuel srcLn dstLn f1 f2 acc

/-- `Repairer.dump_compare_streams` (modulo logging, counters and the
fix-file handling): prime one line from each stream and run the merge
loop. -/
def dumpCompareStreams (cf pk : List PyStr) (fuel : Nat)
    (f1 f2 : List PyStr) : Except String (Option (List FixAction)) :=
  let (srcLn, f1) := readLn f1
  let (dstLn, f2) := readLn f2
  dumpCompareGo cf pk fuel srcLn dstLn f1 f2 []

/-! # Theorems -/

/-! ## Helper lemmas -/

theorem ext3_of_parts (v1 v2 : List Char)
    (h : v1.length = v2.length + 3) (ht : v1.take v2.length = v2)
    (hp : v1.getD v2.length ' ' = '+') : ∃ a b, v1 = v2 ++ ['+', a, b] := by
  have hsplit : v1 = v2 ++ v1.drop v2.length := by
    conv_lhs => rw [← List.take_append_drop v2.length v1, ht]
  have hdl : (v1.drop v2.length).length = 3 := by
    rw [List.length_drop]; omega
  rcases hd : v1.drop v2.length with _ | ⟨x, _ | ⟨y, _ | ⟨z, rest⟩⟩⟩ <;>
    rw [hd] at hdl <;> simp at hdl
  rw [hd] at hsplit
  subst hdl
  have hx : x = '+' := by
    rw [hsplit, List.getD_append_right _ _ _ _ (le_refl _)] at hp
    simpa using hp
  exact ⟨y, z, by rw [hsplit, hx]⟩

theorem parts_of_ext3 (v2 : List Char) (a b : Char) :
    (v2 ++ ['+', a, b]).length = v2.length + 3 ∧
    (v2 ++ ['+', a, b]).getD v2.length ' ' = '+' ∧
    (v2 ++ ['+', a, b]).take v2.length = v2 := by
  refine ⟨by simp, ?_, ?_⟩
  · rw [List.getD_append_right _ _ _ _ (le_refl _)]
    simp
  · simp

/-! ## C8: repair single-field comparison -/

/-- C8 counterexample: the claim as stated ignores the 19-character
minimum.  `"ab+00"` carries a trailing 3-character `+hh` offset over
`"ab"` (as the second conjunct shows), so the claim calls them equal,
but `cmp_value` reports them unequal because the common part is shorter
than 19 characters. -/
theorem C8_counterexample :
    "ab+00".data = "ab".data ++ ['+', '0', '0'] ∧
    cmpValueL "ab+00".data "ab".data = -1 := by
  constructor
  · rfl
  · rfl

/-- C8 (amended): `cmp_value` treats two field values as equal iff they
are identical, or one is the other extended by a trailing 3-character
group starting with `+` *and the common part is at least 19 characters
long*. -/
theorem C8_cmp_value_eq_iff (v1 v2 : PyStr) :
    cmpValueL v1 v2 = 0 ↔
      (v1 = v2 ∨
       (v2.length ≥ 19 ∧ ∃ a b, v1 = v2 ++ ['+', a, b]) ∨
       (v1.length ≥ 19 ∧ ∃ a b, v2 = v1 ++ ['+', a, b])) := by
  unfold cmpValueL
  split_ifs with h hc1 ht1 hc2 ht2
  · simp [h]
  · simp only [eq_self_iff_true, true_iff]
    refine Or.inr (Or.inl ⟨hc1.2.1, ?_⟩)
    have h23 : v2.length = v1.length - 3 := by omega
    exact ext3_of_parts v1 v2 hc1.1 (by rw [h23]; exact ht1) hc1.2.2
  · constructor
    · intro hfalse; exact absurd hfalse (by decide)
    · rintro (rfl | ⟨_, a, b, rfl⟩ | ⟨_, a, b, hv2⟩)
      · exact absurd rfl h
      · exact absurd (by simpa using (parts_of_ext3 v2 a b).2.2) ht1
      · rw [hv2] at hc1; simp at hc1; omega
  · simp only [eq_self_iff_true, true_iff]
    refine Or.inr (Or.inr ⟨hc2.2.1, ?_⟩)
    have h13 : v1.length = v2.length - 3 := by omega
    exact ext3_of_parts v2 v1 hc2.1.symm (by rw [h13]; exact ht2) hc2.2.2
  · constructor
    · intro hfalse; exact absurd hfalse (by decide)
    · rintro (rfl | ⟨_, a, b, hv1⟩ | ⟨_, a, b, rfl⟩)
      · exact absurd rfl h
      · rw [hv1] at hc2; simp at hc2; omega
      · exact absurd (by simpa using (parts_of_ext3 v1 a b).2.2) ht2
  · constructor
    · intro hfalse; exact absurd hfalse (by decide)
    · rintro (rfl | ⟨h19, a, b, rfl⟩ | ⟨h19, a, b, rfl⟩)
      · exact absurd rfl h
      · exact hc1 ⟨(parts_of_ext3 v2 a b).1, h19, (parts_of_ext3 v2 a b).2.1⟩
      · exact hc2 ⟨((parts_of_ext3 v1 a b).1).symm, h19, (parts_of_ext3 v1 a b).2.1⟩

theorem dictGet_cons_self {κ α : Type} [DecidableEq κ] (k : κ) (v : α)
    (t : List (κ × α)) : dictGet k ((k, v) :: t) = some v := by
  simp [dictGet]

theorem dictSet_cons_self {κ α : Type} [DecidableEq κ] (k : κ) (v w : α)
    (t : List (κ × α)) : dictSet k v ((k, w) :: t) = (k, v) :: t := by
  simp [dictSet]

/-! ## C4: dispatcher bulk-collector op graph -/

/-- C4 counterexample: an operation outside `I`/`U`/`D` does *not*
raise `unknown event type` — `OP_GRAPH[_op].get(op, _op)` falls back to
the old state, so an unknown op on a fresh pkey is stored silently
under the initial `-` state (the `except KeyError` branch is dead). -/
theorem C4_counterexample :
    bulkProcess ["id".data] [] "X".data
        [("id".data, "1".data), ("v".data, "a".data)] =
      .ok [(["1".data],
            ("-".data, [("id".data, "1".data), ("v".data, "a".data)]))] := by
  rfl

/-- C4 (amended): collapsing successive operations on the same pkey
follows the op graph — `I` then `D` drops the pair (state `.`, which
`collect_data` ignores), `I` then `U` yields `I`, `D` then `I` yields
`U`, `U` then `D` yields `D`, and a repeated `D` keeps op `D`; an
operation outside I/U/D does not raise: it leaves the stored op state
unchanged (initial `-` on a fresh key, prior `D` after a delete). -/
theorem C4_op_graph (pkv d1 d2 : PyStr) (op : PyStr)
    (hI : op ≠ "I".data) (hU : op ≠ "U".data) (hD : op ≠ "D".data) :
    (bulkProcess ["id".data] [] "I".data
        [("id".data, pkv), ("v".data, d1)] =
      .ok [([pkv], ("I".data, [("id".data, pkv), ("v".data, d1)]))]) ∧
    (bulkProcess ["id".data]
        [([pkv], ("I".data, [("id".data, pkv), ("v".data, d1)]))] "D".data
        [("id".data, pkv), ("v".data, d2)] =
      .ok [([pkv], (".".data, [("id".data, pkv), ("v".data, d2)]))]) ∧
    (bulkCollectData
        [([pkv], (".".data, [("id".data, pkv), ("v".data, d2)]))] =
      ([], [], [])) ∧
    (bulkProcess ["id".data]
        [([pkv], ("I".data, [("id".data, pkv), ("v".data, d1)]))] "U".data
        [("id".data, pkv), ("v".data, d2)] =
      .ok [([pkv], ("I".data, [("id".data, pkv), ("v".data, d2)]))]) ∧
    (bulkProcess ["id".data]
        [([pkv], ("D".data, [("id".data, pkv), ("v".data, d1)]))] "I".data
        [("id".data, pkv), ("v".data, d2)] =
      .ok [([pkv], ("U".data, [("id".data, pkv), ("v".data, d2)]))]) ∧
    (bulkProcess ["id".data]
        [([pkv], ("U".data, [("id".data, pkv), ("v".data, d1)]))] "D".data
        [("id".data, pkv), ("v".data, d2)] =
      .ok [([pkv], ("D".data, [("id".data, pkv), ("v".data, d2)]))]) ∧
    (bulkProcess ["id".data]
        [([pkv], ("D".data, [("id".data, pkv), ("v".data, d1)]))] "D".data
        [("id".data, pkv), ("v".data, d2)] =
      .ok [([pkv], ("D".data, [("id".data, pkv), ("v".data, d2)]))]) ∧
    (bulkProcess ["id".data] [] op
        [("id".data, pkv), ("v".data, d1)] =
      .ok [([pkv], ("-".data, [("id".data, pkv), ("v".data, d1)]))]) ∧
    (bulkProcess ["id".data]
        [([pkv], ("D".data, [("id".data, pkv), ("v".data, d1)]))] op
        [("id".data, pkv), ("v".data, d2)] =
      .ok [([pkv], ("D".data, [("id".data, pkv), ("v".data, d2)]))]) := by
  refine ⟨?_, ?_, ?_, ?_, ?_, ?_, ?_, ?_, ?_⟩ <;>
    simp [bulkProcess, bulkCollectData, opGraph, dictGet, dictSet, dictDel,
          hI, hU, hD, List.mapM.loop, Option.elim, Except.bind, bind, pure,
          Except.pure, Except.map, Functor.map]

/-- Witness for `C4_op_graph` at concrete inputs. -/
theorem C4_op_graph_witness :
    "X".data ≠ "I".data ∧
    bulkProcess ["id".data] [] "X".data
        [("id".data, "1".data), ("v".data, "a".data)] =
      .ok [(["1".data],
            ("-".data, [("id".data, "1".data), ("v".data, "a".data)]))] :=
  ⟨by decide,
   (C4_op_graph "1".data "a".data "b".data "X".data
      (by decide) (by decide) (by decide)).2.2.2.2.2.2.2.1⟩

/-! ## C3: need-execute decision -/

theorem needExecuteScan_empty (a : ExecAttrs) (env : LocalEnv)
    (h : a.isEmpty = true) : needExecuteScan a env = .ok (0, 0) := by
  simp only [ExecAttrs.isEmpty, metaMatchers, List.all_cons, List.all_nil,
    Bool.and_eq_true, decide_eq_true_eq] at h
  obtain ⟨h1, h2, h3, h4, h5, h6, h7, h8, -⟩ := h
  simp [needExecuteScan, metaMatchers, h1, h2, h3, h4, h5, h6, h7, h8,
    pure, Except.pure, bind, Except.bind]

/-- C3 counterexample: with a single key `local-table` holding values
`a` (present locally) and `b` (absent), the claim counts whole keys —
M = 0 keys fully matched, N = 1 key failed — and so predicts a `False`
(skip) result, as `needExecuteKeyLevel` (the claim as stated) shows;
the source counts individual values and gets matched = missed = 1, a
mixed result, and raises instead. -/
theorem C3_counterexample :
    needExecuteKeyLevel
        { localTable := ["a".data, "b".data] }
        { tables := [("public.a".data, "public.a".data)], seqs := [],
          existsTable := fun _ => false, existsSequence := fun _ => false,
          existsFunction := fun _ _ => false, existsSchema := fun _ => false,
          existsView := fun _ => false } = .ok false ∧
    isOkB (needExecute
        { localTable := ["a".data, "b".data] }
        { tables := [("public.a".data, "public.a".data)], seqs := [],
          existsTable := fun _ => false, existsSequence := fun _ => false,
          existsFunction := fun _ _ => false, existsSchema := fun _ => false,
          existsView := fun _ => false }) = false := by
  exact ⟨rfl, rfl⟩

/-- C3 (amended): with M the number of individual attribute *values*
that match locally and N the number that fail, `need_execute` returns
True iff N = 0 (this covers both the all-match and the empty-attrs
cases), returns False iff N > 0 and M = 0, and raises iff the result is
mixed (M > 0 and N > 0). -/
theorem C3_need_execute (a : ExecAttrs) (env : LocalEnv) (m n : Nat)
    (hscan : needExecuteScan a env = .ok (m, n)) :
    (needExecute a env = .ok true ↔ n = 0) ∧
    (needExecute a env = .ok false ↔ n > 0 ∧ m = 0) ∧
    (isOkB (needExecute a env) = false ↔ m > 0 ∧ n > 0) := by
  by_cases hemp : a.isEmpty = true
  · have h0 := needExecuteScan_empty a env hemp
    have h' : ((0, 0) : Nat × Nat) = (m, n) := Except.ok.inj (h0.symm.trans hscan)
    obtain ⟨h1, h2⟩ := Prod.mk.inj h'
    subst h1; subst h2
    simp [needExecute, hemp, isOkB]
  · have hne : a.isEmpty = false := by simpa using hemp
    have hrun : needExecute a env =
        (if m > 0 ∧ n = 0 then .ok true
         else if n > 0 ∧ m = 0 then .ok false
         else if n = 0 ∧ m = 0 then .ok true
         else .error "SQL only partially matches local setup") := by
      simp [needExecute, hne, hscan]
    rw [hrun]
    rcases Nat.eq_zero_or_pos m with hm | hm <;>
      rcases Nat.eq_zero_or_pos n with hn | hn
    · subst hm; subst hn; simp [isOkB]
    · subst hm
      have hn' : n ≠ 0 := by omega
      simp [hn', hn, isOkB]
    · subst hn
      have hm' : m ≠ 0 := by omega
      simp [hm', hm, isOkB]
    · have hn' : n ≠ 0 := by omega
      have hm' : m ≠ 0 := by omega
      simp [hn', hm', hn, hm, isOkB]

/-- Witness for `C3_need_execute`: a single matching value gives
scan counts (1, 0) and an execute decision. -/
theorem C3_need_execute_witness :
    needExecute
        { localTable := ["a".data] }
        { tables := [("public.a".data, "public.a".data)], seqs := [],
          existsTable := fun _ => false, existsSequence := fun _ => false,
          existsFunction := fun _ _ => false, existsSchema := fun _ => false,
          existsView := fun _ => false } = .ok true :=
  (C3_need_execute
    { localTable := ["a".data] }
    { tables := [("public.a".data, "public.a".data)], seqs := [],
      existsTable := fun _ => false, existsSequence := fun _ => false,
      existsFunction := fun _ _ => false, existsSchema := fun _ => false,
      existsView := fun _ => false } 1 0 rfl).1.mpr rfl

/-! ## C2: copy-thread do-sync hand-off -/

/-- C2: whenever the copy worker's table is in `do-sync` with
`sync_tick_id = s` (nonzero, else the `assert` fires): at
`cur_tick = s` the table is promoted to `ok` and the worker exits
(`SYNC_EXIT`); below `s` the next batch is consumed (`SYNC_OK`) with
the table map untouched; above `s` an `Invalid table state` exception
is raised; and any successful run that leaves the table in `ok` state
must have had `cur_tick = s`. -/
theorem C2_do_sync_handoff (ctx : CopyThreadCtx) (n : PyStr) (t : TableState)
    (s : Int)
    (hname : ctx.copyTableName = some n)
    (hmap : dictGet n ctx.tableMap = some t)
    (hstate : t.state = TABLE_DO_SYNC)
    (htick : t.syncTickId = some s) (hs : s ≠ 0) :
    (ctx.curTick = s →
      syncFromCopyThread ctx =
        .ok (SYNC_EXIT,
          { ctx with pgqMinCount := none, pgqMinInterval := none,
                     tableMap := dictSet n (t.changeState TABLE_OK none)
                                   ctx.tableMap })) ∧
    (ctx.curTick < s →
      syncFromCopyThread ctx =
        .ok (SYNC_OK,
          { ctx with pgqMinCount := none, pgqMinInterval := none })) ∧
    (ctx.curTick > s →
      syncFromCopyThread ctx = .error "Invalid table state") ∧
    (∀ r ctx', syncFromCopyThread ctx = .ok (r, ctx') →
      (dictGet n ctx'.tableMap).map TableState.state = some TABLE_OK →
      ctx.curTick = s) := by
  have hrun : syncFromCopyThread ctx =
      (if ctx.curTick = s then
        .ok (SYNC_EXIT,
          { ctx with pgqMinCount := none, pgqMinInterval := none,
                     tableMap := dictSet n (t.changeState TABLE_OK none)
                                   ctx.tableMap })
       else if ctx.curTick < s then
        .ok (SYNC_OK, { ctx with pgqMinCount := none, pgqMinInterval := none })
       else .error "Invalid table state") := by
    unfold syncFromCopyThread
    rw [hname]
    have hsc : ((some n).bind fun k =>
        Option.map (fun x => (k, x)) (dictGet k ctx.tableMap)) = some (n, t) := by
      simp [hmap]
    rw [hsc]
    simp only [hstate, htick, hs, TABLE_DO_SYNC]
    norm_num
    rfl
  refine ⟨?_, ?_, ?_, ?_⟩
  · intro he; rw [hrun, if_pos he]
  · intro hlt
    rw [hrun, if_neg (by omega), if_pos hlt]
  · intro hgt
    rw [hrun, if_neg (by omega), if_neg (by omega)]
  · intro r ctx' hok hstate'
    by_contra hne
    by_cases hlt : ctx.curTick < s
    · rw [hrun, if_neg hne, if_pos hlt] at hok
      obtain ⟨-, rfl⟩ : r = SYNC_OK ∧
          ctx' = { ctx with pgqMinCount := none, pgqMinInterval := none } := by
        have := Except.ok.inj hok
        exact ⟨congrArg Prod.fst this.symm, congrArg Prod.snd this.symm⟩
      simp only [hmap, Option.map_some] at hstate'
      have := Option.some.inj hstate'
      rw [hstate] at this
      simp [TABLE_DO_SYNC, TABLE_OK] at this
    · rw [hrun, if_neg hne, if_neg hlt] at hok
      exact Except.noConfusion hok

/-- Witness for `C2_do_sync_handoff` at a concrete context
(tick 7 matching sync_tick_id 7 promotes to ok and exits). -/
theorem C2_do_sync_handoff_witness :
    syncFromCopyThread
        { copyTableName := some "t".data,
          tableMap := [("t".data,
            { name := "t".data, state := TABLE_DO_SYNC,
              syncTickId := some 7 })],
          curTick := 7, workState := 0 } =
      .ok (SYNC_EXIT,
        { copyTableName := some "t".data,
          tableMap := [("t".data,
            { name := "t".data, state := TABLE_OK, syncTickId := none,
              changed := 1 })],
          curTick := 7, workState := 0 }) :=
  (C2_do_sync_handoff
    { copyTableName := some "t".data,
      tableMap := [("t".data,
        { name := "t".data, state := TABLE_DO_SYNC, syncTickId := some 7 })],
      curTick := 7, workState := 0 }
    "t".data
    { name := "t".data, state := TABLE_DO_SYNC, syncTickId := some 7 }
    7 rfl rfl rfl rfl (by decide)).1 rfl

/-! ## C5: shard handler filtering -/

/-- C5: `load_shard_info` accepts the `partconf.conf` triple exactly
when `shard_count = shard_mask+1`, `shard_count & shard_mask = 0` and
`0 ≤ shard_nr < shard_count`; with `disable_replay` unset, an event
whose `extra3` decodes to integer hash `h` is applied iff
`h & shard_mask = shard_nr`; an event with missing `extra3` or without
a `hash` value — whether the decoded dict carries `hash` as a bare
valueless token or lacks the key entirely — raises out of
`process_event`. -/
theorem C5_shard_filter (nr mask cnt h : Int) (e3 hstr : PyStr)
    (hdec : dictGet "hash".data (dbUrldecode e3) = some (some hstr))
    (hint : pyParseInt hstr = some h) :
    (loadShardInfo ⟨some nr, some mask, some cnt⟩ = .ok (nr, mask) ↔
      (cnt = mask + 1 ∧ Int.land cnt mask = 0 ∧ 0 ≤ nr ∧ nr < cnt)) ∧
    (∀ e : Event, e.extra3 = some e3 →
      (shardProcessEvent false nr mask e = .ok true ↔ Int.land h mask = nr) ∧
      (shardProcessEvent false nr mask e = .ok false ↔ Int.land h mask ≠ nr)) ∧
    (∀ e : Event, e.extra3 = none →
      shardProcessEvent false nr mask e =
        .error "handlers.shard: extra3 not filled") ∧
    (∀ (e : Event) (x : PyStr), e.extra3 = some x →
      dictGet "hash".data (dbUrldecode x) = some none →
      shardProcessEvent false nr mask e =
        .error "handlers.shard: extra3 does not have hash key") ∧
    (∀ (e : Event) (x : PyStr), e.extra3 = some x →
      dictGet "hash".data (dbUrldecode x) = none →
      shardProcessEvent false nr mask e =
        .error "handlers.shard: extra3 does not have hash key") := by
  refine ⟨?_, ?_, ?_, ?_, ?_⟩
  · have hred : loadShardInfo ⟨some nr, some mask, some cnt⟩ =
        (if Int.land cnt mask ≠ 0 ∨ mask + 1 ≠ cnt then
          Except.error "Invalid shard info"
         else if nr < 0 ∨ nr ≥ cnt then Except.error "Invalid shard nr"
         else Except.ok (nr, mask)) := rfl
    rw [hred]
    split_ifs with h1 h2
    · simp only [reduceCtorEq, false_iff]
      omega
    · simp only [reduceCtorEq, false_iff]
      omega
    · simp only [Except.ok.injEq, eq_self_iff_true, true_iff]
      push_neg at h1 h2
      exact ⟨by omega, h1.1, by omega, by omega⟩
  · intro e he
    have hrun : shardProcessEvent false nr mask e =
        .ok (decide (Int.land h mask = nr)) := by
      unfold shardProcessEvent isLocalShardEvent
      rw [he]
      simp only [hdec]
      simp [parseIntE, hint, pure, Except.pure, bind, Except.bind]
    rw [hrun]
    constructor
    · simp
    · simp
  · intro e he
    unfold shardProcessEvent isLocalShardEvent
    rw [he]
    rfl
  · intro e x he hx
    unfold shardProcessEvent isLocalShardEvent
    rw [he]
    simp only [hx]
    rfl
  · intro e x he hx
    unfold shardProcessEvent isLocalShardEvent
    rw [he]
    simp only [hx]
    rfl

/-- Witness for `C5_shard_filter`: hash 0 with mask 3 lands on shard
0, so the event is applied there. -/
theorem C5_shard_filter_witness :
    shardProcessEvent false 0 3
        { type := "I".data, extra3 := some "hash=0".data } = .ok true :=
  ((C5_shard_filter 0 3 4 0 "hash=0".data "0".data rfl rfl).2.1
    { type := "I".data, extra3 := some "hash=0".data } rfl).1.mpr
    (by simp [show Int.land 0 3 = Int.ofNat (0 &&& 3) from rfl, Nat.zero_and])

/-! ## C6: repair merge-scan stream tails -/

/-- C6 (code bug): with common fields `id, data` and pkey `id`, a
provider dump holding one remaining row while the subscriber dump is
exhausted makes `dump_compare_streams` call `get_row("")`, which splits
`""` into `[""]` and indexes past its end — an `IndexError` — instead
of classifying the remaining key as a missed insert.  The second
conjunct shows the never-reached `None` contract of `cmp_keys`
(&quot;None means table is done&quot;) would have classified it correctly:
a finished destination stream compares as larger, yielding a missed
insert. -/
theorem C6_stream_tail_bug :
    dumpCompareStreams ["id".data, "data".data] ["id".data] 10
        ["1\ta\n".data] [] = .error "IndexError" ∧
    cmpKeys ["id".data]
        (some [("id".data, "1".data), ("data".data, "a".data)]) none =
      .ok (-1) := by
  exact ⟨rfl, rfl⟩

/-! ## C1: per-event interest check -/

theorem changeSnapshot_none (ts : TableState) :
    ts.changeSnapshot none true =
      .ok (if ts.strSnapshot = none then ts
           else { ts with strSnapshot := none, fromSnapshot := none,
                          okBatchCount := 0, lastTick := none, changed := 1 }) := by
  unfold TableState.changeSnapshot
  by_cases h : ts.strSnapshot = none
  · simp [h, pure, Except.pure]
  · simp [h, pyTruthyOptStr, pure, Except.pure, bind, Except.bind]

theorem interesting_rest_char (ts : TableState) (ev : Event) (tickId : Int) :
    ∃ b ts',
      (match ts.fromSnapshot with
       | none => Except.ok (true, ts)
       | some snap =>
         if snap.containsTx ev.txid then Except.ok (false, ts)
         else if some tickId ≠ ts.lastTick then
           if ({ ts with lastTick := some tickId,
                         okBatchCount := ts.okBatchCount + 1 } :
                 TableState).okBatchCount > 3 then
             match ({ ts with lastTick := some tickId,
                              okBatchCount := ts.okBatchCount + 1 } :
                 TableState).changeSnapshot none true with
             | .ok t => Except.ok (true, t)
             | .error e => Except.error e
           else Except.ok (true, { ts with lastTick := some tickId,
                                           okBatchCount := ts.okBatchCount + 1 })
         else Except.ok (true, ts)) = Except.ok (b, ts') ∧
      (b = true ↔ ∀ snap, ts.fromSnapshot = some snap →
          snap.containsTx ev.txid = false) ∧
      ((ts'.strSnapshot = none) ↔
        (ts.strSnapshot = none ∨
         (b = true ∧ ts.fromSnapshot.isSome = true ∧
          some tickId ≠ ts.lastTick ∧ ts.okBatchCount + 1 > 3))) := by
  rcases hfs : ts.fromSnapshot with _ | snap
  · exact ⟨true, ts, rfl, by simp, by simp⟩
  · by_cases hcont : snap.containsTx ev.txid = true
    · refine ⟨false, ts, by simp [hcont], ?_, by simp⟩
      constructor
      · intro h; exact absurd h (by simp)
      · intro hall; exact absurd (hall snap rfl) (by simp [hcont])
    · by_cases htk : some tickId ≠ ts.lastTick
      · by_cases hcnt : ts.okBatchCount + 1 > 3
        · by_cases hsn : ts.strSnapshot = none
          · refine ⟨true,
                { ts with lastTick := some tickId,
                          okBatchCount := ts.okBatchCount + 1 },
                ?_, ?_, ?_⟩
            · simp [hcont, htk, hcnt, changeSnapshot_none, hsn, hfs]
            · constructor
              · intro _ s hs; cases hs; simpa using hcont
              · intro _; rfl
            · simp [hsn]
          · refine ⟨true,
                { ts with strSnapshot := none, fromSnapshot := none,
                          okBatchCount := 0, lastTick := none, changed := 1 },
                ?_, ?_, ?_⟩
            · simp [hcont, htk, hcnt, changeSnapshot_none, hsn, hfs]
            · constructor
              · intro _ s hs; cases hs; simpa using hcont
              · intro _; rfl
            · simp [hsn, htk, hcnt]
        · refine ⟨true,
              { ts with lastTick := some tickId,
                        okBatchCount := ts.okBatchCount + 1 },
              ?_, ?_, ?_⟩
          · simp [hcont, htk, hcnt, hfs]
          · constructor
            · intro _ s hs; cases hs; simpa using hcont
            · intro _; rfl
          · simp [hcnt]
      · have htk' : some tickId = ts.lastTick := not_not.mp htk
        refine ⟨true, ts, ?_, ?_, ?_⟩
        · simp [hcont, htk']
        · constructor
          · intro _ s hs; cases hs; simpa using hcont
          · intro _; rfl
        · simp [htk']

/-- C1: the interest check never raises; it accepts an event iff the
state gate passes (normal replay: state `ok`; copy worker: the copied
table in `catching-up` or `do-sync`) and the event's txid is not inside
the tracked snapshot; and the snapshot ends up cleared exactly when it
was already absent or this accepted event is the first of a new batch
that pushes the ok-batch counter past 3 (i.e. after 3 counted batches
with interesting events outside the snapshot). -/
theorem C1_interest_check (ts : TableState) (ev : Event) (tickId : Int)
    (ct : Bool) (ctn : Option PyStr) :
    ∃ b ts', ts.interesting ev tickId ct ctn = .ok (b, ts') ∧
      (b = true ↔
        ((if ct then ctn = some ts.name ∧
            (ts.state = TABLE_CATCHING_UP ∨ ts.state = TABLE_DO_SYNC)
          else ts.state = TABLE_OK) ∧
         (∀ snap, ts.fromSnapshot = some snap →
            snap.containsTx ev.txid = false))) ∧
      ((ts'.strSnapshot = none) ↔
        (ts.strSnapshot = none ∨
         (b = true ∧ ts.fromSnapshot.isSome = true ∧
          some tickId ≠ ts.lastTick ∧ ts.okBatchCount + 1 > 3))) := by
  obtain ⟨b, ts', hrest, hiff, hsnap⟩ := interesting_rest_char ts ev tickId
  by_cases hct : ct
  · by_cases hname : some ts.name ≠ ctn
    · refine ⟨false, ts, ?_, ?_, by simp⟩
      · unfold TableState.interesting
        simp [hct, hname]
      · simp only [Bool.false_eq_true, false_iff, hct, if_true, not_and]
        intro hand
        exact absurd hand.1.symm hname
    · by_cases hst : ts.state ≠ TABLE_CATCHING_UP ∧ ts.state ≠ TABLE_DO_SYNC
      · refine ⟨false, ts, ?_, ?_, by simp⟩
        · unfold TableState.interesting
          simp only [hct, if_true, ite_true, hname, if_false, ite_false]
          simp [hst]
        · simp only [Bool.false_eq_true, false_iff, hct, if_true, not_and]
          intro hand
          rcases hand.2 with h | h <;> tauto
      · refine ⟨b, ts', ?_, ?_, hsnap⟩
        · unfold TableState.interesting
          simp only [hct, if_true, ite_true, hname, if_false, ite_false, hst]
          exact hrest
        · rw [hiff]
          push_neg at hname
          have hor : (ts.state = TABLE_CATCHING_UP ∨ ts.state = TABLE_DO_SYNC) := by
            tauto
          simp [hct, hname.symm, hor]
  · by_cases hst : ts.state ≠ TABLE_OK
    · refine ⟨false, ts, ?_, ?_, by simp⟩
      · unfold TableState.interesting
        simp [hct, hst]
      · simp only [Bool.false_eq_true, false_iff, hct, not_and]
        intro hand
        exact absurd hand hst
    · refine ⟨b, ts', ?_, ?_, hsnap⟩
      · unfold TableState.interesting
        simp only [hct, Bool.false_eq_true, if_false, ite_false, hst]
        exact hrest
      · rw [hiff]
        push_neg at hst
        simp [hct, hst]

/-! ## Decimal rendering / parsing lemmas -/

theorem natDigitsGo_acc (n : Nat) : ∀ acc, natDigitsGo n acc = natDigitsGo n [] ++ acc := by
  induction n using Nat.strong_induction_on with
  | _ n ih =>
    intro acc
    by_cases h : n < 10
    · conv_lhs => rw [natDigitsGo]
      conv_rhs => rw [natDigitsGo]
      simp [h]
    · conv_lhs => rw [natDigitsGo]
      conv_rhs => rw [natDigitsGo]
      simp only [h, dite_false]
      rw [ih (n / 10) (Nat.div_lt_self (by omega) (by omega))
            (pyDigitChar (n % 10) :: acc),
          ih (n / 10) (Nat.div_lt_self (by omega) (by omega)) [pyDigitChar (n % 10)]]
      simp

theorem natDigits_small (n : Nat) (h : n < 10) : natDigits n = [pyDigitChar n] := by
  rw [natDigits, natDigitsGo]
  simp [h]

theorem natDigits_large (n : Nat) (h : ¬ n < 10) :
    natDigits n = natDigits (n / 10) ++ [pyDigitChar (n % 10)] := by
  rw [natDigits, natDigitsGo]
  simp only [h, dite_false]
  rw [natDigitsGo_acc, natDigits]

theorem natDigits_mem (n : Nat) : ∀ c ∈ natDigits n, ∃ k, k < 10 ∧ c = pyDigitChar k := by
  induction n using Nat.strong_induction_on with
  | _ n ih =>
    intro c hc
    by_cases h : n < 10
    · rw [natDigits_small n h] at hc
      simp at hc
      exact ⟨n, h, hc⟩
    · rw [natDigits_large n h] at hc
      rcases List.mem_append.mp hc with h1 | h2
      · exact ih (n / 10) (Nat.div_lt_self (by omega) (by omega)) c h1
      · simp at h2
        exact ⟨n % 10, Nat.mod_lt _ (by omega), h2⟩

theorem natDigits_ne_nil (n : Nat) : natDigits n ≠ [] := by
  by_cases h : n < 10
  · rw [natDigits_small n h]; simp
  · rw [natDigits_large n h]; simp

theorem pyDigitVal_pyDigitChar (k : Nat) (h : k < 10) :
    pyDigitVal (pyDigitChar k) = some k := by
  interval_cases k <;> decide

theorem pyDigitChar_not_space (k : Nat) (h : k < 10) :
    pyIsSpace (pyDigitChar k) = false := by
  interval_cases k <;> decide

theorem natDigits_foldl (n : Nat) : ∀ acc,
    (natDigits n).foldl (fun acc c => acc * 10 + (pyDigitVal c).getD 0) acc =
      acc * 10 ^ (natDigits n).length + n := by
  induction n using Nat.strong_induction_on with
  | _ n ih =>
    intro acc
    by_cases h : n < 10
    · rw [natDigits_small n h]
      simp [pyDigitVal_pyDigitChar n h]
    · rw [natDigits_large n h]
      rw [List.foldl_append,
          ih (n / 10) (Nat.div_lt_self (by omega) (by omega)) acc]
      simp only [List.foldl_cons, List.foldl_nil, List.length_append,
        List.length_cons, List.length_nil]
      rw [pyDigitVal_pyDigitChar (n % 10) (Nat.mod_lt _ (by omega))]
      simp only [Option.getD_some]
      rw [pow_succ]
      have hdm : 10 * (n / 10) + n % 10 = n := Nat.div_add_mod n 10
      ring_nf
      omega

theorem digitsVal_natDigits (n : Nat) : digitsVal (natDigits n) = some n := by
  unfold digitsVal
  have hall : (natDigits n).all (fun c => (pyDigitVal c).isSome) := by
    rw [List.all_eq_true]
    intro c hc
    obtain ⟨k, hk, rfl⟩ := natDigits_mem n c hc
    rw [pyDigitVal_pyDigitChar k hk]
    rfl
  rw [if_pos ⟨natDigits_ne_nil n, hall⟩, natDigits_foldl n 0]
  simp

theorem dropWhile_all_false (p : Char → Bool) (l : PyStr)
    (h : ∀ c ∈ l, p c = false) : l.dropWhile p = l := by
  rcases l with _ | ⟨c, t⟩
  · rfl
  · rw [List.dropWhile_cons]
    simp [h c (by simp)]

theorem pyStrip_eq_self (l : PyStr) (h : ∀ c ∈ l, pyIsSpace c = false) :
    pyStrip l = l := by
  unfold pyStrip
  rw [dropWhile_all_false _ _ h,
      dropWhile_all_false _ _ (fun c hc => h c (List.mem_reverse.mp hc)),
      List.reverse_reverse]

theorem pyDigitChar_ne (k : Nat) (h : k < 10) :
    pyDigitChar k ≠ '-' ∧ pyDigitChar k ≠ '+' ∧ pyDigitChar k ≠ ':' ∧
    pyDigitChar k ≠ ',' ∧ pyDigitChar k ≠ '\n' := by
  interval_cases k <;> refine ⟨by decide, by decide, by decide, by decide, by decide⟩

theorem intRepr_not_space (i : Int) :
    ∀ c ∈ intRepr i, pyIsSpace c = false := by
  intro c hc
  unfold intRepr at hc
  split_ifs at hc with hneg
  · rcases List.mem_cons.mp hc with rfl | hmem
    · decide
    · obtain ⟨k, hk, rfl⟩ := natDigits_mem _ c hmem
      exact pyDigitChar_not_space k hk
  · obtain ⟨k, hk, rfl⟩ := natDigits_mem _ c hc
    exact pyDigitChar_not_space k hk

theorem pyParseInt_intRepr (i : Int) : pyParseInt (intRepr i) = some i := by
  unfold pyParseInt
  rw [pyStrip_eq_self _ (intRepr_not_space i)]
  by_cases hneg : i < 0
  · rw [show intRepr i = '-' :: natDigits i.natAbs by
      unfold intRepr; rw [if_pos hneg]]
    dsimp only
    rw [if_pos rfl, digitsVal_natDigits]
    have hval : (-(i.natAbs : Int)) = i := by omega
    exact congrArg some hval
  · rw [show intRepr i = natDigits i.toNat by
      unfold intRepr; rw [if_neg hneg]]
    rcases hd : natDigits i.toNat with _ | ⟨c, t⟩
    · exact absurd hd (natDigits_ne_nil _)
    · obtain ⟨k, hk, rfl⟩ := natDigits_mem _ c (by rw [hd]; simp)
      obtain ⟨h1, h2, -⟩ := pyDigitChar_ne k hk
      dsimp only
      rw [if_neg h1, if_neg h2, ← hd, digitsVal_natDigits]
      have hval : ((i.toNat : Int)) = i := by omega
      exact congrArg some hval

/-! ## Split lemmas -/

theorem pySplit_no_sep (sep : Char) (l : PyStr) (h : sep ∉ l) :
    pySplit sep l = [l] := by
  induction l with
  | nil => rfl
  | cons c t ih =>
    rw [pySplit]
    have hc : ¬ c = sep := fun hh => h (by simp [hh])
    rw [if_neg hc, ih (fun hm => h (by simp [hm]))]

theorem pySplit_ne_nil (sep : Char) (l : PyStr) : pySplit sep l ≠ [] := by
  induction l with
  | nil => simp [pySplit]
  | cons c t ih =>
    rw [pySplit]
    split_ifs
    · simp
    · rcases hs : pySplit sep t with _ | ⟨x, r⟩
      · simp
      · simp

theorem pySplit_append_sep (sep : Char) (a b : PyStr) (h : sep ∉ a) :
    pySplit sep (a ++ sep :: b) = a :: pySplit sep b := by
  induction a with
  | nil => simp [pySplit]
  | cons c t ih =>
    have hc : ¬ c = sep := fun hh => h (by simp [hh])
    rw [List.cons_append, pySplit, if_neg hc,
        ih (fun hm => h (by simp [hm]))]

theorem pySplit_singleton_inv (sep : Char) (l x : PyStr)
    (h : pySplit sep l = [x]) : l = x ∧ sep ∉ x := by
  induction l generalizing x with
  | nil =>
    rw [pySplit] at h
    cases h
    simp
  | cons c t ih =>
    rw [pySplit] at h
    by_cases hc : c = sep
    · rw [if_pos hc] at h
      simp only [List.cons.injEq] at h
      exact absurd h.2 (pySplit_ne_nil sep t)
    · rw [if_neg hc] at h
      rcases hs : pySplit sep t with _ | ⟨y, r⟩
      · exact absurd hs (pySplit_ne_nil sep t)
      · rw [hs] at h
        simp only [List.cons.injEq] at h
        obtain ⟨hx, hr⟩ := h
        obtain ⟨ht, hny⟩ := ih y (by rw [hs, hr])
        subst ht
        subst hx
        refine ⟨rfl, ?_⟩
        simp only [List.mem_cons, not_or]
        exact ⟨fun hh => hc hh.symm, hny⟩

theorem pySplit_pair_inv (sep : Char) (l w t : PyStr)
    (h : pySplit sep l = [w, t]) : l = w ++ sep :: t ∧ sep ∉ w ∧ sep ∉ t := by
  induction l generalizing w with
  | nil =>
    rw [pySplit] at h
    cases h
  | cons c r ih =>
    rw [pySplit] at h
    by_cases hc : c = sep
    · rw [if_pos hc] at h
      simp only [List.cons.injEq] at h
      obtain ⟨hw, hrest⟩ := h
      obtain ⟨hr, hnt⟩ := pySplit_singleton_inv sep r t hrest
      subst hc
      subst hr
      exact ⟨by rw [← hw]; simp, by rw [← hw]; simp, hnt⟩
    · rw [if_neg hc] at h
      rcases hs : pySplit sep r with _ | ⟨y, rr⟩
      · exact absurd hs (pySplit_ne_nil sep r)
      · rw [hs] at h
        simp only [List.cons.injEq] at h
        obtain ⟨hw, hrr⟩ := h
        obtain ⟨hr2, hwy, hnt⟩ := ih y (by rw [hs, hrr])
        subst hr2
        refine ⟨?_, ?_, hnt⟩
        · rw [← hw]
          simp
        · rw [← hw]
          simp only [List.mem_cons, not_or]
          exact ⟨fun hh => hc hh.symm, hwy⟩

/-! ## C9: merge_state rendering / parsing -/

theorem orZero_some (t : Int) : orZero (some t) = t := by
  unfold orZero pyTruthyOptInt
  by_cases h : t = 0 <;> simp [h]

theorem intRepr_no_colon (i : Int) : ':' ∉ intRepr i := by
  intro hc
  unfold intRepr at hc
  split_ifs at hc with hneg
  · rcases List.mem_cons.mp hc with h | hmem
    · exact absurd h.symm (by decide)
    · obtain ⟨k, hk, he⟩ := natDigits_mem _ ':' hmem
      exact absurd he.symm (pyDigitChar_ne k hk).2.2.1
  · obtain ⟨k, hk, he⟩ := natDigits_mem _ ':' hc
    exact absurd he.symm (pyDigitChar_ne k hk).2.2.1

theorem cons_ne_cons_of_head (a b : Char) (l1 l2 : PyStr) (h : a ≠ b) :
    (a :: l1) ≠ (b :: l2) := by simp [h]

theorem parseState_split2 (ts : TableState) (ms w t0 : PyStr)
    (hms : ms = w ++ ':' :: t0) (hnw : ':' ∉ w) (hnt : ':' ∉ t0)
    (hne1 : ms ≠ "in-copy".data) (hne2 : ms ≠ "catching-up".data)
    (hne3 : ms ≠ "ok".data) (hne4 : ms ≠ "?".data) :
    ts.parseState (some ms) =
      (match pyParseInt t0 with
       | none => .error ("invalid literal for int: " ++ t0.asString)
       | some tick =>
         if w = "wanna-sync".data then
           .ok (TABLE_WANNA_SYNC, { ts with syncTickId := some tick })
         else if w = "do-sync".data then
           .ok (TABLE_DO_SYNC, { ts with syncTickId := some tick })
         else .error ("Bad table state: " ++ ms.asString)) := by
  unfold TableState.parseState
  dsimp only
  rw [if_neg hne1, if_neg hne2, if_neg hne3, if_neg hne4]
  rw [show pySplit ':' ms = [w, t0] by
    rw [hms, pySplit_append_sep ':' w (t0) hnw, pySplit_no_sep ':' t0 hnt]]
  dsimp only
  rcases hp : pyParseInt t0 with _ | tick <;> rfl

theorem pySplit_of_decomp (ms w t0 : PyStr) (hms : ms = w ++ ':' :: t0)
    (hnw : ':' ∉ w) (hnt : ':' ∉ t0) : pySplit ':' ms = [w, t0] := by
  rw [hms, pySplit_append_sep ':' w t0 hnw, pySplit_no_sep ':' t0 hnt]

theorem parseState_ok_iff (u : TableState) (ms : PyStr) :
    isOkB (u.parseState (some ms)) = true ↔
      (ms = "in-copy".data ∨ ms = "catching-up".data ∨ ms = "ok".data ∨
       ms = "?".data ∨
       ∃ w t0, ms = w ++ ':' :: t0 ∧
         (w = "wanna-sync".data ∨ w = "do-sync".data) ∧ ':' ∉ t0 ∧
         (pyParseInt t0).isSome = true) := by
  have hwna : (':' : Char) ∉ "wanna-sync".data := by decide
  have hdoc : (':' : Char) ∉ "do-sync".data := by decide
  by_cases e1 : ms = "in-copy".data
  · subst e1; simp [isOkB, TableState.parseState]
  by_cases e2 : ms = "catching-up".data
  · subst e2; simp [isOkB, TableState.parseState]
  by_cases e3 : ms = "ok".data
  · subst e3; simp [isOkB, TableState.parseState]
  by_cases e4 : ms = "?".data
  · subst e4; simp [isOkB, TableState.parseState]
  have hredL : u.parseState (some ms) =
      (match pySplit ':' ms with
       | [w, t] =>
         match pyParseInt t with
         | none => .error ("invalid literal for int: " ++ t.asString)
         | some tick =>
           if w = "wanna-sync".data then
             .ok (TABLE_WANNA_SYNC, { u with syncTickId := some tick })
           else if w = "do-sync".data then
             .ok (TABLE_DO_SYNC, { u with syncTickId := some tick })
           else .error ("Bad table state: " ++ ms.asString)
       | _ => .error ("Bad table state: " ++ ms.asString)) := by
    unfold TableState.parseState
    dsimp only
    rw [if_neg e1, if_neg e2, if_neg e3, if_neg e4]
    rfl
  rw [hredL]
  simp only [e1, e2, e3, e4, false_or]
  rcases hsp : pySplit ':' ms with _ | ⟨w, rest⟩
  · exact absurd hsp (pySplit_ne_nil ':' ms)
  rcases rest with _ | ⟨t0, more⟩
  · simp only [isOkB, Bool.false_eq_true, false_iff]
    rintro ⟨w', t0', hms', hw', hnt', hps'⟩
    have hsp' := pySplit_of_decomp ms w' t0'
      hms' (by rcases hw' with rfl | rfl <;> assumption) hnt'
    rw [hsp] at hsp'
    cases hsp'
  rcases more with _ | ⟨x, xs⟩
  · obtain ⟨hms0, hnw0, hnt0⟩ := pySplit_pair_inv ':' ms w t0 hsp
    simp only []
    rcases hp : pyParseInt t0 with _ | tick
    · simp only [isOkB, Bool.false_eq_true, false_iff]
      rintro ⟨w', t0', hms', hw', hnt', hps'⟩
      have hsp' := pySplit_of_decomp ms w' t0'
        hms' (by rcases hw' with rfl | rfl <;> assumption) hnt'
      rw [hsp] at hsp'
      simp only [List.cons.injEq, and_true] at hsp'
      obtain ⟨-, h2⟩ := hsp'
      rw [← h2, hp] at hps'
      exact absurd hps' (by simp)
    · simp only []
      by_cases hw : w = "wanna-sync".data
      · rw [if_pos hw]
        simp only [isOkB, true_iff]
        exact ⟨w, t0, hms0, Or.inl hw, hnt0, by rw [hp]; rfl⟩
      · by_cases hd : w = "do-sync".data
        · rw [if_neg hw, if_pos hd]
          simp only [isOkB, true_iff]
          exact ⟨w, t0, hms0, Or.inr hd, hnt0, by rw [hp]; rfl⟩
        · rw [if_neg hw, if_neg hd]
          simp only [isOkB, Bool.false_eq_true, false_iff]
          rintro ⟨w', t0', hms', hw', hnt', hps'⟩
          have hsp' := pySplit_of_decomp ms w' t0'
            hms' (by rcases hw' with rfl | rfl <;> assumption) hnt'
          rw [hsp] at hsp'
          simp only [List.cons.injEq, and_true] at hsp'
          obtain ⟨h1, -⟩ := hsp'
          rcases hw' with rfl | rfl
          · exact hw h1
          · exact hd h1
  · simp only [isOkB, Bool.false_eq_true, false_iff]
    rintro ⟨w', t0', hms', hw', hnt', hps'⟩
    have hsp' := pySplit_of_decomp ms w' t0'
      hms' (by rcases hw' with rfl | rfl <;> assumption) hnt'
    rw [hsp] at hsp'
    simp at hsp'

/-- C9: for a table state whose `sync_tick_id` is set exactly when the
state is wanna-sync or do-sync, `parse_state(render_state())` returns
the original state code and leaves `sync_tick_id` equal to the original;
`parse_state` maps null to missing and `?` to ok; and it succeeds on
exactly the recognized merge_state strings (the fixed words plus
`wanna-sync:<int>` / `do-sync:<int>`), raising on any other string. -/
theorem C9_state_roundtrip (ts : TableState)
    (hst : ts.state ≤ TABLE_OK)
    (hsync : ts.syncTickId.isSome = true ↔
      (ts.state = TABLE_WANNA_SYNC ∨ ts.state = TABLE_DO_SYNC)) :
    (∃ ts', ts.parseState ts.renderState = .ok (ts.state, ts') ∧
       ts'.syncTickId = ts.syncTickId) ∧
    (∀ u : TableState, u.parseState none = .ok (TABLE_MISSING, u)) ∧
    (∀ u : TableState, u.parseState (some "?".data) = .ok (TABLE_OK, u)) ∧
    (∀ (u : TableState) (ms : PyStr),
      isOkB (u.parseState (some ms)) = true ↔
        (ms = "in-copy".data ∨ ms = "catching-up".data ∨ ms = "ok".data ∨
         ms = "?".data ∨
         ∃ w t0, ms = w ++ ':' :: t0 ∧
           (w = "wanna-sync".data ∨ w = "do-sync".data) ∧ ':' ∉ t0 ∧
           (pyParseInt t0).isSome = true)) := by
  refine ⟨?_, fun u => rfl, fun u => rfl, fun u ms => parseState_ok_iff u ms⟩
  have h6 : ts.state = 0 ∨ ts.state = 1 ∨ ts.state = 2 ∨ ts.state = 3 ∨
      ts.state = 4 ∨ ts.state = 5 := by
    have := hst
    unfold TABLE_OK at this
    omega
  rcases h6 with hs | hs | hs | hs | hs | hs
  · refine ⟨ts, ?_, rfl⟩
    have hr : ts.renderState = none := by
      unfold TableState.renderState
      rw [if_pos (show ts.state = TABLE_MISSING from hs)]
    rw [hr, hs]
    rfl
  · refine ⟨ts, ?_, rfl⟩
    have hr : ts.renderState = some "in-copy".data := by
      unfold TableState.renderState
      rw [if_neg (by rw [hs]; decide),
          if_pos (show ts.state = TABLE_IN_COPY from hs)]
    rw [hr, hs]
    rfl
  · refine ⟨ts, ?_, rfl⟩
    have hr : ts.renderState = some "catching-up".data := by
      unfold TableState.renderState
      rw [if_neg (by rw [hs]; decide), if_neg (by rw [hs]; decide),
          if_pos (show ts.state = TABLE_CATCHING_UP from hs)]
    rw [hr, hs]
    rfl
  · obtain ⟨t, ht⟩ := Option.isSome_iff_exists.mp
      (hsync.mpr (Or.inl hs))
    refine ⟨{ ts with syncTickId := some t }, ?_, by rw [ht]⟩
    have hr : ts.renderState = some ("wanna-sync:".data ++ intRepr t) := by
      unfold TableState.renderState
      rw [if_neg (by rw [hs]; decide), if_neg (by rw [hs]; decide),
          if_neg (by rw [hs]; decide),
          if_pos (show ts.state = TABLE_WANNA_SYNC from hs), ht, orZero_some]
    rw [hr]
    rw [parseState_split2 ts ("wanna-sync:".data ++ intRepr t) "wanna-sync".data (intRepr t) rfl
        (by decide) (intRepr_no_colon t)
        (cons_ne_cons_of_head 'w' 'i' _ _ (by decide))
        (cons_ne_cons_of_head 'w' 'c' _ _ (by decide))
        (cons_ne_cons_of_head 'w' 'o' _ _ (by decide))
        (cons_ne_cons_of_head 'w' '?' _ _ (by decide)),
      pyParseInt_intRepr t]
    rw [hs]
    rfl
  · obtain ⟨t, ht⟩ := Option.isSome_iff_exists.mp
      (hsync.mpr (Or.inr hs))
    refine ⟨{ ts with syncTickId := some t }, ?_, by rw [ht]⟩
    have hr : ts.renderState = some ("do-sync:".data ++ intRepr t) := by
      unfold TableState.renderState
      rw [if_neg (by rw [hs]; decide), if_neg (by rw [hs]; decide),
          if_neg (by rw [hs]; decide), if_neg (by rw [hs]; decide),
          if_pos (show ts.state = TABLE_DO_SYNC from hs), ht, orZero_some]
    rw [hr]
    rw [parseState_split2 ts ("do-sync:".data ++ intRepr t) "do-sync".data (intRepr t) rfl
        (by decide) (intRepr_no_colon t)
        (cons_ne_cons_of_head 'd' 'i' _ _ (by decide))
        (cons_ne_cons_of_head 'd' 'c' _ _ (by decide))
        (cons_ne_cons_of_head 'd' 'o' _ _ (by decide))
        (cons_ne_cons_of_head 'd' '?' _ _ (by decide)),
      pyParseInt_intRepr t]
    rw [hs]
    rfl
  · refine ⟨ts, ?_, rfl⟩
    have hr : ts.renderState = some "ok".data := by
      unfold TableState.renderState
      rw [if_neg (by rw [hs]; decide), if_neg (by rw [hs]; decide),
          if_neg (by rw [hs]; decide), if_neg (by rw [hs]; decide),
          if_neg (by rw [hs]; decide),
          if_pos (show ts.state = TABLE_OK from hs)]
    rw [hr, hs]
    rfl

/-- Witness for `C9_state_roundtrip` on a wanna-sync state with
sync_tick_id 42. -/
theorem C9_state_roundtrip_witness :
    (∃ ts',
      ({ name := "t".data, state := TABLE_WANNA_SYNC,
         syncTickId := some 42 : TableState}).parseState
        ({ name := "t".data, state := TABLE_WANNA_SYNC,
           syncTickId := some 42 : TableState}).renderState =
        .ok (TABLE_WANNA_SYNC, ts') ∧ ts'.syncTickId = some 42) :=
  (C9_state_roundtrip
    { name := "t".data, state := TABLE_WANNA_SYNC, syncTickId := some 42 }
    (by decide) (by simp [TABLE_WANNA_SYNC, TABLE_DO_SYNC])).1

theorem utf8DecodeGo_nil (f : Nat) : utf8DecodeGo f [] = [] := by
  cases f <;> rfl

theorem char_toNat_lt (c : Char) : c.toNat < 1114112 := by
  rcases c.valid with h | h
  · exact lt_trans h (by norm_num)
  · exact h.2

theorem utf8EncodeChar_lt (c : Char) : ∀ b ∈ utf8EncodeChar c, b < 256 := by
  have hv := char_toNat_lt c
  intro b hb
  simp only [utf8EncodeChar] at hb
  split_ifs at hb with h1 h2 h3 <;> simp at hb <;> omega

theorem utf8DecodeGo_encode (s : List Char) :
    ∀ f, (s.flatMap utf8EncodeChar).length ≤ f →
      utf8DecodeGo f (s.flatMap utf8EncodeChar) = s := by
  induction s with
  | nil => intro f _; simp [utf8DecodeGo_nil]
  | cons c t ih =>
    intro f hf
    have hv := char_toNat_lt c
    rw [List.flatMap_cons] at hf ⊢
    by_cases h1 : c.toNat < 0x80
    · have he : utf8EncodeChar c = [c.toNat] := by
        simp only [utf8EncodeChar]; rw [if_pos h1]
      rw [he] at hf ⊢
      rw [List.singleton_append] at hf ⊢
      cases f with
      | zero => simp at hf
      | succ g =>
        simp only [utf8DecodeGo]
        rw [if_pos h1, Char.ofNat_toNat]
        have hg : (t.flatMap utf8EncodeChar).length ≤ g := by
          simp only [List.length_cons] at hf; omega
        rw [ih g hg]
    · by_cases h2 : c.toNat < 0x800
      · have he : utf8EncodeChar c =
            [0xC0 + c.toNat / 0x40, 0x80 + c.toNat % 0x40] := by
          simp only [utf8EncodeChar]; rw [if_neg h1, if_pos h2]
        rw [he] at hf ⊢
        simp only [List.cons_append, List.nil_append] at hf ⊢
        cases f with
        | zero => simp at hf
        | succ g =>
          simp only [utf8DecodeGo]
          rw [if_neg (by omega), if_neg (by omega), if_pos (by omega)]
          rw [if_pos (show utf8Cont (0x80 + c.toNat % 0x40) = true by
            simp [utf8Cont]; omega)]
          have harg : (0xC0 + c.toNat / 0x40 - 0xC0) * 0x40 +
              (0x80 + c.toNat % 0x40 - 0x80) = c.toNat := by omega
          rw [harg, Char.ofNat_toNat]
          have hg : (t.flatMap utf8EncodeChar).length ≤ g := by
            simp only [List.length_cons] at hf; omega
          rw [ih g hg]
      · by_cases h3 : c.toNat < 0x10000
        · have he : utf8EncodeChar c =
              [0xE0 + c.toNat / 0x1000, 0x80 + (c.toNat / 0x40) % 0x40,
               0x80 + c.toNat % 0x40] := by
            simp only [utf8EncodeChar]; rw [if_neg h1, if_neg h2, if_pos h3]
          rw [he] at hf ⊢
          simp only [List.cons_append, List.nil_append] at hf ⊢
          cases f with
          | zero => simp at hf
          | succ g =>
            simp only [utf8DecodeGo]
            rw [if_neg (by omega), if_neg (by omega), if_neg (by omega),
                if_pos (by omega)]
            rw [if_pos (show (utf8Cont (0x80 + (c.toNat / 0x40) % 0x40) &&
                utf8Cont (0x80 + c.toNat % 0x40)) = true by
              simp [utf8Cont]; omega)]
            have harg : (0xE0 + c.toNat / 0x1000 - 0xE0) * 0x1000 +
                (0x80 + (c.toNat / 0x40) % 0x40 - 0x80) * 0x40 +
                (0x80 + c.toNat % 0x40 - 0x80) = c.toNat := by omega
            rw [harg, Char.ofNat_toNat]
            have hg : (t.flatMap utf8EncodeChar).length ≤ g := by
              simp only [List.length_cons] at hf; omega
            rw [ih g hg]
        · have he : utf8EncodeChar c =
              [0xF0 + c.toNat / 0x40000, 0x80 + (c.toNat / 0x1000) % 0x40,
               0x80 + (c.toNat / 0x40) % 0x40, 0x80 + c.toNat % 0x40] := by
            simp only [utf8EncodeChar]; rw [if_neg h1, if_neg h2, if_neg h3]
          rw [he] at hf ⊢
          simp only [List.cons_append, List.nil_append] at hf ⊢
          cases f with
          | zero => simp at hf
          | succ g =>
            simp only [utf8DecodeGo]
            rw [if_neg (by omega), if_neg (by omega), if_neg (by omega),
                if_neg (by omega)]
            rw [if_pos (show ((utf8Cont (0x80 + (c.toNat / 0x1000) % 0x40) &&
                utf8Cont (0x80 + (c.toNat / 0x40) % 0x40)) &&
                utf8Cont (0x80 + c.toNat % 0x40)) = true by
              simp [utf8Cont]; omega)]
            have harg : (0xF0 + c.toNat / 0x40000 - 0xF0) * 0x40000 +
                (0x80 + (c.toNat / 0x1000) % 0x40 - 0x80) * 0x1000 +
                (0x80 + (c.toNat / 0x40) % 0x40 - 0x80) * 0x40 +
                (0x80 + c.toNat % 0x40 - 0x80) = c.toNat := by omega
            rw [harg, Char.ofNat_toNat]
            have hg : (t.flatMap utf8EncodeChar).length ≤ g := by
              simp only [List.length_cons] at hf; omega
            rw [ih g hg]

theorem utf8Decode_encode (s : List Char) :
    utf8Decode (s.flatMap utf8EncodeChar) = s :=
  utf8DecodeGo_encode s _ le_rfl

theorem hexVal_hexDigitCharU (b : Nat) (h : b < 16) :
    hexVal (hexDigitCharU b) = some b := by
  interval_cases b <;> decide

theorem hexDigitCharU_ne (b : Nat) (h : b < 16) :
    hexDigitCharU b ≠ '+' ∧ hexDigitCharU b ≠ '&' ∧ hexDigitCharU b ≠ '=' ∧
    hexDigitCharU b ≠ ',' ∧ hexDigitCharU b ≠ '\n' := by
  interval_cases b <;> decide

theorem unquoteBytes_cons (c : Char) (l : List Char) (hc : c ≠ '%') :
    unquoteBytes (c :: l) = utf8EncodeChar c ++ unquoteBytes l := by
  rw [unquoteBytes.eq_def]
  split
  · rename_i heq
    exact absurd heq (List.cons_ne_nil c l)
  · rename_i h1 h2 rest heq
    simp only [List.cons.injEq] at heq
    exact absurd heq.1 hc
  · rename_i c2 rest heq
    simp only [List.cons.injEq] at heq
    rw [← heq.1, ← heq.2]

theorem unquoteBytes_pct (b : Nat) (hb : b < 256) (l : List Char) :
    unquoteBytes ('%' :: hexDigitCharU (b / 16) :: hexDigitCharU (b % 16) :: l) =
      b :: unquoteBytes l := by
  simp only [unquoteBytes]
  rw [hexVal_hexDigitCharU _ (by omega), hexVal_hexDigitCharU _ (by omega)]
  dsimp only
  rw [show b / 16 * 16 + b % 16 = b from by omega]

theorem unquoteBytes_pctList (bs : List Nat) (l : List Char)
    (hb : ∀ b ∈ bs, b < 256) :
    unquoteBytes (bs.flatMap pctEscape ++ l) = bs ++ unquoteBytes l := by
  induction bs with
  | nil => simp
  | cons b t ih =>
    rw [List.flatMap_cons, List.append_assoc]
    show unquoteBytes ('%' :: hexDigitCharU (b / 16) :: hexDigitCharU (b % 16) ::
      (t.flatMap pctEscape ++ l)) = _
    rw [unquoteBytes_pct b (hb b (by simp)), ih (fun x hx => hb x (by simp [hx]))]
    rfl

theorem urlSafe_ne (c : Char) (h : urlSafe c = true) :
    c ≠ '+' ∧ c ≠ '%' ∧ c ≠ '&' ∧ c ≠ '=' ∧ c ≠ ',' ∧ c ≠ ' ' ∧ c ≠ '\n' := by
  refine ⟨?_, ?_, ?_, ?_, ?_, ?_, ?_⟩ <;> (rintro rfl; revert h; decide)

theorem map_self_of (f : Char → Char) (l : List Char)
    (h : ∀ c ∈ l, f c = c) : l.map f = l := by
  induction l with
  | nil => rfl
  | cons c t ih =>
    rw [List.map_cons, h c (by simp), ih (fun x hx => h x (by simp [hx]))]

theorem pctEscape_eq (b : Nat) :
    pctEscape b = ['%', hexDigitCharU (b / 16), hexDigitCharU (b % 16)] := rfl

theorem unquoteBytes_quoteChar (c : Char) (l : List Char) :
    unquoteBytes ((quotePlusChar c).map (fun x => if x = '+' then ' ' else x) ++ l) =
      utf8EncodeChar c ++ unquoteBytes l := by
  by_cases hs : urlSafe c
  · have h := urlSafe_ne c hs
    simp only [quotePlusChar]
    rw [if_pos hs]
    simp only [List.map_cons, List.map_nil, if_neg h.1]
    rw [List.singleton_append, unquoteBytes_cons c l h.2.1]
  · by_cases hsp : c = ' '
    · subst hsp
      rw [show (quotePlusChar ' ').map (fun x => if x = '+' then ' ' else x) =
        [' '] from rfl]
      rw [List.singleton_append, unquoteBytes_cons ' ' l (by decide)]
    · simp only [quotePlusChar]
      rw [if_neg hs, if_neg hsp]
      have hid : ((utf8EncodeChar c).flatMap pctEscape).map
          (fun x => if x = '+' then ' ' else x) =
          (utf8EncodeChar c).flatMap pctEscape := by
        apply map_self_of
        intro x hx
        rcases List.mem_flatMap.mp hx with ⟨b, hb, hxb⟩
        have hb256 := utf8EncodeChar_lt c b hb
        rw [pctEscape_eq] at hxb
        simp only [List.mem_cons, List.not_mem_nil, or_false] at hxb
        rcases hxb with h1 | h1 | h1
        · rw [h1]; rfl
        · rw [h1, if_neg (hexDigitCharU_ne (b / 16) (by omega)).1]
        · rw [h1, if_neg (hexDigitCharU_ne (b % 16) (by omega)).1]
      rw [hid, unquoteBytes_pctList _ l (utf8EncodeChar_lt c)]

theorem unquoteBytes_quotePlus (s : PyStr) (l : List Char) :
    unquoteBytes ((quotePlus s).map (fun x => if x = '+' then ' ' else x) ++ l) =
      s.flatMap utf8EncodeChar ++ unquoteBytes l := by
  induction s with
  | nil => simp [quotePlus]
  | cons c t ih =>
    have hq : quotePlus (c :: t) = quotePlusChar c ++ quotePlus t := rfl
    rw [hq, List.map_append, List.append_assoc, unquoteBytes_quoteChar,
        List.flatMap_cons, List.append_assoc, ih]

theorem unquotePlus_quotePlus (s : PyStr) : unquotePlus (quotePlus s) = s := by
  have h := unquoteBytes_quotePlus s []
  rw [List.append_nil, show unquoteBytes [] = [] from rfl, List.append_nil] at h
  simp only [unquotePlus]
  rw [h]
  exact utf8Decode_encode s

theorem quotePlus_chars (s : PyStr) (ch : Char) (h : ch ∈ quotePlus s) :
    ch ≠ '&' ∧ ch ≠ '=' ∧ ch ≠ ',' ∧ ch ≠ '\n' := by
  simp only [quotePlus] at h
  rcases List.mem_flatMap.mp h with ⟨c, _, hch⟩
  by_cases hs : urlSafe c
  · rw [quotePlusChar, if_pos hs] at hch
    have h1 : ch = c := List.mem_singleton.mp hch
    subst h1
    have h2 := urlSafe_ne ch hs
    exact ⟨h2.2.2.1, h2.2.2.2.1, h2.2.2.2.2.1, h2.2.2.2.2.2.2⟩
  · by_cases hsp : c = ' '
    · rw [quotePlusChar, if_neg hs, hsp] at hch
      rw [show (if (' ' : Char) = ' ' then ['+'] else
          (utf8EncodeChar ' ').flatMap pctEscape) = ['+'] from rfl] at hch
      have h1 : ch = '+' := List.mem_singleton.mp hch
      subst h1
      exact ⟨by decide, by decide, by decide, by decide⟩
    · rw [quotePlusChar, if_neg hs, if_neg hsp] at hch
      rcases List.mem_flatMap.mp hch with ⟨b, hb, hxb⟩
      have hb256 := utf8EncodeChar_lt c b hb
      rw [pctEscape_eq] at hxb
      simp only [List.mem_cons, List.not_mem_nil, or_false] at hxb
      rcases hxb with h1 | h1 | h1
      · subst h1; exact ⟨by decide, by decide, by decide, by decide⟩
      · subst h1
        have h2 := hexDigitCharU_ne (b / 16) (by omega)
        exact ⟨h2.2.1, h2.2.2.1, h2.2.2.2.1, h2.2.2.2.2⟩
      · subst h1
        have h2 := hexDigitCharU_ne (b % 16) (by omega)
        exact ⟨h2.2.1, h2.2.2.1, h2.2.2.2.1, h2.2.2.2.2⟩

theorem findIdx_append_aux (c : Char) (b : PyStr) :
    ∀ (a : PyStr) (i : Nat), c ∉ a →
      List.findIdx? (fun x => x = c) (a ++ c :: b) i = some (i + a.length) := by
  intro a
  induction a with
  | nil =>
    intro i _
    rw [List.nil_append, List.findIdx?_cons]
    simp
  | cons x t ih =>
    intro i hx
    rw [List.cons_append, List.findIdx?_cons]
    have hxc : ¬ (x = c) := fun hh => hx (by simp [hh])
    rw [if_neg (by simp [hxc])]
    rw [ih (i + 1) (fun hm => hx (by simp [hm]))]
    simp only [List.length_cons, Option.some.injEq]
    omega

theorem pyFindChar_append (c : Char) (a b : PyStr) (h : c ∉ a) :
    pyFindChar c (a ++ c :: b) = (a.length : Int) := by
  unfold pyFindChar
  rw [findIdx_append_aux c b a 0 h]
  dsimp only
  simp

theorem findIdx_not_mem_aux (c : Char) :
    ∀ (l : PyStr) (i : Nat), c ∉ l →
      List.findIdx? (fun x => x = c) l i = none := by
  intro l
  induction l with
  | nil => intro i _; rfl
  | cons x t ih =>
    intro i hx
    rw [List.findIdx?_cons]
    have hxc : ¬ (x = c) := fun hh => hx (by simp [hh])
    rw [if_neg (by simp [hxc])]
    exact ih (i + 1) (fun hm => hx (by simp [hm]))

theorem pyFindChar_not_mem (c : Char) (l : PyStr) (h : c ∉ l) :
    pyFindChar c l = -1 := by
  unfold pyFindChar
  rw [findIdx_not_mem_aux c l 0 h]

theorem findIdx_mem_aux (c : Char) :
    ∀ (l : PyStr) (i : Nat), c ∈ l →
      (List.findIdx? (fun x => x = c) l i).isSome = true := by
  intro l
  induction l with
  | nil => intro i hx; cases hx
  | cons x t ih =>
    intro i hx
    rw [List.findIdx?_cons]
    by_cases hxc : x = c
    · simp [hxc]
    · rw [if_neg (by simp [hxc])]
      rcases List.mem_cons.mp hx with h1 | h1
      · exact absurd h1.symm hxc
      · exact ih (i + 1) h1

theorem pyFindChar_mem_nonneg (c : Char) (l : PyStr) (h : c ∈ l) :
    0 ≤ pyFindChar c l := by
  unfold pyFindChar
  rcases hf : List.findIdx? (fun x => x = c) l 0 with _ | j
  · have := findIdx_mem_aux c l 0 h
    rw [hf] at this
    cases this
  · dsimp only
    exact Int.ofNat_nonneg j

theorem span_ne_append (sep : Char) (a b : PyStr) (h : sep ∉ a) :
    (a ++ sep :: b).span (fun c => c ≠ sep) = (a, sep :: b) := by
  induction a with
  | nil =>
    rw [List.nil_append, List.span_eq_take_drop, List.takeWhile_cons,
        List.dropWhile_cons]
    simp
  | cons x t ih =>
    have hx : ¬ (x = sep) := fun hh => h (by simp [hh])
    have ih2 := ih (fun hm => h (by simp [hm]))
    rw [List.span_eq_take_drop] at ih2
    simp only [Prod.mk.injEq] at ih2
    rw [List.cons_append, List.span_eq_take_drop, List.takeWhile_cons,
        List.dropWhile_cons, if_pos (show (fun c => decide (c ≠ sep)) x = true
          from by simp [hx]), if_pos (show (fun c => decide (c ≠ sep)) x = true
          from by simp [hx]), ih2.1, ih2.2]

theorem pySplitOnce_append (sep : Char) (a b : PyStr) (h : sep ∉ a) :
    pySplitOnce sep (a ++ sep :: b) = [a, b] := by
  unfold pySplitOnce
  rw [span_ne_append sep a b h]

theorem intercalate_cons2 (sep : Char) (x y : PyStr) (zs : List PyStr) :
    List.intercalate [sep] (x :: y :: zs) =
      x ++ sep :: List.intercalate [sep] (y :: zs) := by
  simp [List.intercalate, List.intersperse_cons_cons]

theorem intercalate_one (sep : Char) (p : PyStr) :
    List.intercalate [sep] [p] = p := by
  simp [List.intercalate]

theorem pySplit_intercalate (sep : Char) (parts : List PyStr)
    (h : ∀ p ∈ parts, sep ∉ p) (hne : parts ≠ []) :
    pySplit sep (List.intercalate [sep] parts) = parts := by
  induction parts with
  | nil => exact absurd rfl hne
  | cons p rest ih =>
    cases rest with
    | nil => rw [intercalate_one, pySplit_no_sep sep p (h p (by simp))]
    | cons q rest2 =>
      rw [intercalate_cons2, pySplit_append_sep sep p _ (h p (by simp)),
          ih (fun r hr => h r (by simp [hr])) (by simp)]

theorem mem_intercalate (sep : Char) (parts : List PyStr) (ch : Char)
    (h : ch ∈ List.intercalate [sep] parts) : ch = sep ∨ ∃ p ∈ parts, ch ∈ p := by
  induction parts with
  | nil => simp [List.intercalate] at h
  | cons p rest ih =>
    cases rest with
    | nil =>
      rw [intercalate_one] at h
      exact Or.inr ⟨p, by simp, h⟩
    | cons q rest2 =>
      rw [intercalate_cons2] at h
      rcases List.mem_append.mp h with hp | hq
      · exact Or.inr ⟨p, by simp, hp⟩
      · rcases List.mem_cons.mp hq with h1 | h1
        · exact Or.inl h1
        · rcases ih h1 with h2 | ⟨r, hr, hcr⟩
          · exact Or.inl h2
          · exact Or.inr ⟨r, by simp [hr], hcr⟩

theorem dictHas_iff_mem {κ α : Type} [DecidableEq κ] (k : κ)
    (d : List (κ × α)) : dictHas k d = true ↔ k ∈ d.map Prod.fst := by
  induction d with
  | nil => simp [dictHas, dictGet]
  | cons p t ih =>
    rcases p with ⟨k2, v⟩
    by_cases hk : k2 = k
    · subst hk
      simp [dictHas, dictGet]
    · simp only [dictHas, dictGet, if_neg hk, List.map_cons, List.mem_cons]
      rw [show (dictGet k t).isSome = dictHas k t from rfl, ih]
      constructor
      · exact Or.inr
      · rintro (h1 | h1)
        · exact absurd h1.symm hk
        · exact h1

theorem dictSet_of_not_has {κ α : Type} [DecidableEq κ] (k : κ) (v : α)
    (d : List (κ × α)) (h : dictHas k d = false) :
    dictSet k v d = d ++ [(k, v)] := by
  induction d with
  | nil => rfl
  | cons p t ih =>
    rcases p with ⟨k2, w⟩
    have hk : ¬ (k2 = k) := by
      intro hh
      subst hh
      simp [dictHas, dictGet] at h
    have ht : dictHas k t = false := by
      simp only [dictHas, dictGet, if_neg hk] at h
      exact h
    rw [dictSet, if_neg hk, ih ht, List.cons_append]

theorem parseArglist_fold (l : List PyStr) :
    ∀ acc args, List.foldlM parseArgStep acc l = .ok args →
      args = acc ++ l.map (fun arg => (argKey arg, argVal arg)) ∧
      ((acc.map Prod.fst).Nodup → (args.map Prod.fst).Nodup) := by
  induction l with
  | nil =>
    intro acc args h
    have h2 : acc = args := by
      have h3 : Except.ok acc = Except.ok (ε := String) args := h
      exact Except.ok.inj h3
    subst h2
    simp
  | cons a t ih =>
    intro acc args h
    rw [List.foldlM_cons] at h
    rcases hstep : parseArgStep acc a with e | acc1
    · rw [hstep] at h
      simp only [Bind.bind, Except.bind] at h
      cases h
    · rw [hstep] at h
      simp only [Bind.bind, Except.bind] at h
      unfold parseArgStep at hstep
      by_cases hhas : dictHas (argKey a) acc = true
      · rw [if_pos hhas] at hstep
        cases hstep
      · rw [if_neg hhas] at hstep
        have hacc1 : acc1 = acc ++ [(argKey a, argVal a)] := by
          have h4 := Except.ok.inj hstep
          rw [← h4, dictSet_of_not_has _ _ _ (by simpa using hhas)]
        obtain ⟨h1, h2⟩ := ih acc1 args h
        constructor
        · rw [h1, hacc1, List.map_cons, List.append_assoc, List.singleton_append]
        · intro hnd
          apply h2
          rw [hacc1]
          simp only [List.map_append, List.map_cons, List.map_nil]
          rw [List.nodup_append]
          refine ⟨hnd, by simp, ?_⟩
          intro x hx
          simp only [List.mem_cons, List.not_mem_nil, or_false]
          intro hk
          subst hk
          exact absurd ((dictHas_iff_mem (argKey a) acc).mpr hx)
            (by simpa using hhas)

theorem encPair_ne_nil (kv : PyStr × PyStr) : encPair kv ≠ [] := by
  unfold encPair
  simp

theorem encPair_chars (kv : PyStr × PyStr) (ch : Char) (h : ch ∈ encPair kv) :
    ch ≠ '&' ∧ ch ≠ ',' ∧ ch ≠ '\n' := by
  unfold encPair at h
  rcases List.mem_append.mp h with h1 | h1
  · have h2 := quotePlus_chars kv.1 ch h1
    exact ⟨h2.1, h2.2.2.1, h2.2.2.2⟩
  · rcases List.mem_cons.mp h1 with h2 | h2
    · subst h2
      exact ⟨by decide, by decide, by decide⟩
    · have h3 := quotePlus_chars kv.2 ch h2
      exact ⟨h3.1, h3.2.2.1, h3.2.2.2⟩

theorem dbDecodeStep_encPair (acc : List (PyStr × Option PyStr))
    (kv : PyStr × PyStr) (h : kv.1 ∉ acc.map Prod.fst) :
    dbDecodeStep acc (encPair kv) = acc ++ [(kv.1, some kv.2)] := by
  unfold dbDecodeStep
  rw [if_neg (by simpa using encPair_ne_nil kv)]
  rw [show encPair kv = quotePlus kv.1 ++ '=' :: quotePlus kv.2 from rfl]
  rw [pySplitOnce_append '=' _ _
    (fun hm => absurd rfl (quotePlus_chars kv.1 '=' hm).2.1)]
  dsimp only
  rw [unquotePlus_quotePlus, unquotePlus_quotePlus]
  apply dictSet_of_not_has
  rcases hhas : dictHas kv.1 acc
  · rfl
  · exact absurd ((dictHas_iff_mem kv.1 acc).mp hhas) h

theorem dbDecode_fold (pairs : List (PyStr × PyStr)) :
    ∀ acc, (pairs.map Prod.fst).Nodup →
      (∀ kv ∈ pairs, kv.1 ∉ acc.map Prod.fst) →
      List.foldl dbDecodeStep acc (pairs.map encPair) =
        acc ++ pairs.map (fun kv => (kv.1, some kv.2)) := by
  induction pairs with
  | nil => intro acc _ _; simp
  | cons kv rest ih =>
    intro acc hnd hacc
    rw [List.map_cons, List.foldl_cons,
        dbDecodeStep_encPair acc kv (hacc kv (by simp))]
    simp only [List.map_cons, List.nodup_cons] at hnd
    rw [ih (acc ++ [(kv.1, some kv.2)]) hnd.2 ?_]
    · rw [List.map_cons, List.append_assoc, List.singleton_append]
    · intro kv2 hkv2
      simp only [List.map_append, List.map_cons, List.map_nil, List.mem_append,
        List.mem_cons, List.not_mem_nil, or_false]
      rintro (h1 | h1)
      · exact absurd h1 (hacc kv2 (by simp [hkv2]))
      · exact absurd (List.mem_map.mpr ⟨kv2, hkv2, h1⟩) hnd.1

theorem filterMap_pairs (args : List (PyStr × PyStr)) :
    (args.map (fun kv => (kv.1, some kv.2))).filterMap
      (fun kv => kv.2.map (fun v => (kv.1, v))) = args := by
  induction args with
  | nil => rfl
  | cons kv rest ih => simp [List.filterMap_cons, ih]

theorem createHandler_ok (name : PyStr) (arglist : List PyStr)
    (args : List (PyStr × PyStr))
    (h2 : '(' ∉ name) (h3 : parseArglist arglist = .ok args)
    (harg : arglist ≠ []) :
    createHandlerString name arglist =
      .ok (name ++ '(' :: List.intercalate ['&'] (args.map encPair) ++ [')']) := by
  have hni : ¬ (pyFindChar '(' name ≥ 0) := by
    rw [pyFindChar_not_mem '(' name h2]; decide
  unfold createHandlerString
  rw [if_neg hni, if_neg harg, h3]
  dsimp only
  have hence : dbUrlencode (args.map (fun kv => (kv.1, some kv.2))) =
      List.intercalate ['&'] (args.map encPair) := by
    unfold dbUrlencode
    rw [List.map_map]
    rfl
  rw [hence]

theorem parseHandler_ok (name : PyStr) (args : List (PyStr × PyStr))
    (h1 : name ≠ []) (h2 : '(' ∉ name)
    (hnodup : (args.map Prod.fst).Nodup) (hargs_ne : args ≠ []) :
    parseHandler (name ++ '(' :: List.intercalate ['&'] (args.map encPair) ++ [')']) =
      .ok (name, args) := by
  set astr := List.intercalate ['&'] (args.map encPair) with hastr
  have hform : name ++ '(' :: astr ++ [')'] = name ++ '(' :: (astr ++ [')']) := by
    simp
  have heq : name ++ '(' :: (astr ++ [')']) = (name ++ '(' :: astr) ++ [')'] := by
    simp
  have hastr_ne : astr ≠ [] := by
    rcases args with _ | ⟨kv0, rest⟩
    · exact absurd rfl hargs_ne
    · rcases rest with _ | ⟨kv1, rest2⟩
      · rw [hastr, List.map_cons, List.map_nil, intercalate_one]
        exact encPair_ne_nil kv0
      · rw [hastr, List.map_cons, List.map_cons, intercalate_cons2]
        simp
  rw [hform]
  have h_find : pyFindChar '(' (name ++ '(' :: (astr ++ [')'])) =
      (name.length : Int) := pyFindChar_append '(' name (astr ++ [')']) h2
  have h_last : (name ++ '(' :: (astr ++ [')'])).getLast? = some ')' := by
    rw [heq, List.getLast?_concat]
  have h_name_take : (name ++ '(' :: (astr ++ [')'])).take name.length = name :=
    List.take_left name _
  have h_take_drop : ((name ++ '(' :: (astr ++ [')'])).take
      ((name ++ '(' :: (astr ++ [')'])).length - 1)).drop (name.length + 1) =
      astr := by
    have hlen : (name ++ '(' :: (astr ++ [')'])).length - 1 =
        (name ++ '(' :: astr).length := by simp
    rw [hlen, heq, List.take_left]
    rw [show name ++ '(' :: astr = (name ++ ['(']) ++ astr from by simp,
        show name.length + 1 = (name ++ ['(']).length from by simp]
    exact List.drop_left _ _
  simp only [parseHandler]
  rw [h_find, if_pos (show (name.length : Int) > 0 from
    Int.natCast_pos.mpr (List.length_pos.mpr h1))]
  rw [if_neg (show ¬ ((name ++ '(' :: (astr ++ [')'])).getLast? ≠ some ')') from
    fun hc => hc h_last)]
  rw [Int.toNat_natCast, h_take_drop, if_neg hastr_ne, h_name_take]
  have hmap : astr.map (fun c => if c = ',' then '&' else c) = astr := by
    apply map_self_of
    intro ch hch
    rcases mem_intercalate '&' (args.map encPair) ch hch with h5 | ⟨p, hp, hchp⟩
    · rw [h5]; rfl
    · rcases List.mem_map.mp hp with ⟨kv, _, hkv⟩
      rw [← hkv] at hchp
      rw [if_neg (encPair_chars kv ch hchp).2.1]
  rw [hmap]
  unfold dbUrldecode
  rw [pySplit_intercalate '&' (args.map encPair) ?amp ?nenil]
  case amp =>
    intro p hp
    rcases List.mem_map.mp hp with ⟨kv, _, hkv⟩
    intro hm
    rw [← hkv] at hm
    exact (encPair_chars kv '&' hm).1 rfl
  case nenil => simpa using hargs_ne
  rw [dbDecode_fold args [] hnodup (by simp), List.nil_append, filterMap_pairs]

theorem createHandler_bad_name (nm : PyStr) (al : List PyStr) (h : '(' ∈ nm) :
    isOkB (createHandlerString nm al) = false := by
  unfold createHandlerString
  rw [if_pos (pyFindChar_mem_nonneg '(' nm h)]
  rfl

theorem createHandler_dup_key (al : List PyStr)
    (h : ¬ (al.map argKey).Nodup) (nm : PyStr) :
    isOkB (createHandlerString nm al) = false := by
  unfold createHandlerString
  by_cases hn : pyFindChar '(' nm ≥ 0
  · rw [if_pos hn]; rfl
  · rw [if_neg hn]
    have hal : al ≠ [] := by rintro rfl; simp at h
    rw [if_neg hal]
    rcases hp : parseArglist al with e | args
    · rfl
    · exfalso
      obtain ⟨heq, hnd⟩ := parseArglist_fold al [] args hp
      apply h
      have hfst : args.map Prod.fst = al.map argKey := by
        rw [heq, List.nil_append, List.map_map]
        rfl
      rw [← hfst]
      exact hnd (by simp)

theorem parseHandler_no_close (s : PyStr) (hp : pyFindChar '(' s > 0)
    (hc : s.getLast? ≠ some ')') : isOkB (parseHandler s) = false := by
  simp only [parseHandler]
  rw [if_pos hp, if_pos hc]
  rfl

/-- C10 counterexample: the empty handler name (which contains no `(`)
breaks the round trip: `create_handler_string("", ["a=b"])` yields
`"(a=b)"`, and `_parse_handler` sees the `(` at index 0, treats the whole
string as a bare handler name and returns no arguments. -/
theorem C10_counterexample :
    createHandlerString [] ["a=b".data] = .ok "(a=b)".data ∧
    parseHandler "(a=b)".data = .ok ("(a=b)".data, []) ∧
    parseHandler "(a=b)".data ≠ .ok (([] : PyStr), [("a".data, "b".data)]) := by
  refine ⟨rfl, rfl, fun hcontra => ?_⟩
  have h4 : ("(a=b)".data, ([] : List (PyStr × PyStr))) =
      (([] : PyStr), [("a".data, "b".data)]) := Except.ok.inj hcontra
  exact absurd (congrArg Prod.fst h4) (by decide)

/-- C10 (amended to nonempty names): for a nonempty handler name without
`(` and arguments whose stripped keys are distinct (so `_parse_arglist`
accepts them as `args`), `create_handler_string` succeeds and
`_parse_handler` returns the name with exactly the map from each stripped
key to its stripped value; `create_handler_string` rejects a name
containing `(` and repeated argument keys, and `_parse_handler` rejects a
string whose `(` at positive index is not closed by a final `)`. -/
theorem C10_handler_roundtrip (name : PyStr) (arglist : List PyStr)
    (args : List (PyStr × PyStr))
    (h1 : name ≠ []) (h2 : '(' ∉ name)
    (h3 : parseArglist arglist = .ok args) :
    (∃ hstr, createHandlerString name arglist = .ok hstr ∧
        parseHandler hstr = .ok (name, args)) ∧
    args = arglist.map (fun arg => (argKey arg, argVal arg)) ∧
    (∀ nm al, '(' ∈ nm → isOkB (createHandlerString nm al) = false) ∧
    (∀ al, ¬ (al.map argKey).Nodup →
      ∀ nm, isOkB (createHandlerString nm al) = false) ∧
    (∀ s : PyStr, pyFindChar '(' s > 0 → s.getLast? ≠ some ')' →
      isOkB (parseHandler s) = false) := by
  obtain ⟨hargs_eq, hnodup0⟩ := parseArglist_fold arglist [] args h3
  have hnodup : (args.map Prod.fst).Nodup := hnodup0 (by simp)
  rw [List.nil_append] at hargs_eq
  refine ⟨?_, hargs_eq, createHandler_bad_name, createHandler_dup_key,
    parseHandler_no_close⟩
  by_cases harg : arglist = []
  · subst harg
    have hargs : args = [] := by simpa using hargs_eq
    subst hargs
    refine ⟨name, ?_, ?_⟩
    · unfold createHandlerString
      rw [if_neg (show ¬ (pyFindChar '(' name ≥ 0) from by
        rw [pyFindChar_not_mem '(' name h2]; decide), if_pos rfl]
    · simp only [parseHandler]
      rw [pyFindChar_not_mem '(' name h2]
      rw [if_neg (by decide)]
  · refine ⟨name ++ '(' :: List.intercalate ['&'] (args.map encPair) ++ [')'],
      createHandler_ok name arglist args h2 h3 harg, ?_⟩
    have hargs_ne : args ≠ [] := by
      rw [hargs_eq]
      simpa using harg
    exact parseHandler_ok name args h1 h2 hnodup hargs_ne

theorem C10_handler_roundtrip_witness :
    ("n".data ≠ ([] : PyStr) ∧ '(' ∉ "n".data ∧
      parseArglist ["a=b".data] = .ok [("a".data, "b".data)]) ∧
    ((∃ hstr, createHandlerString "n".data ["a=b".data] = .ok hstr ∧
        parseHandler hstr = .ok ("n".data, [("a".data, "b".data)])) ∧
      [("a".data, "b".data)] =
        ["a=b".data].map (fun arg => (argKey arg, argVal arg)) ∧
      (∀ nm al, '(' ∈ nm → isOkB (createHandlerString nm al) = false) ∧
      (∀ al, ¬ (al.map argKey).Nodup →
        ∀ nm, isOkB (createHandlerString nm al) = false) ∧
      (∀ s : PyStr, pyFindChar '(' s > 0 → s.getLast? ≠ some ')' →
        isOkB (parseHandler s) = false)) :=
  ⟨⟨by decide, by decide, by rfl⟩,
    C10_handler_roundtrip "n".data ["a=b".data] [("a".data, "b".data)]
      (by decide) (by decide) (by rfl)⟩

